import Mathlib

/-!
Verification of the sitepanda crawler core: URL canonicalization
(normalizeURLtoString, a shallow embedding that includes the relevant part of
Go's net/url Parse/String machinery), glob-based scoping
(shouldProcessContent over a model of gobwas/glob compiled patterns),
link filtering (extractAndFilterLinks), the bounded fetch (fetchPageHTML)
and the crawl orchestration loop (Crawl), modelled as executable functions
over an explicit environment (fetch outcomes, extracted links, cancellation
clock).  Go strings are modelled as lists of characters; the model is
byte-faithful for ASCII, which covers every concrete input used below.
-/

set_option maxHeartbeats 1000000

deriving instance DecidableEq for Except

namespace Sitepanda

/-- Go strings, modelled as lists of characters. -/
abbrev Str := List Char

/-- Coerce a Lean string literal to the model's string type. -/
def goStr (s : String) : Str := s.data

/-- Whether the string starts with the given string (strings.HasPrefix). -/
def strHasPre : Str → Str → Bool
  | _, [] => true
  | [], _ :: _ => false
  | c :: s, d :: p => c == d && strHasPre s p

/-- Whether the string ends with the given string (strings.HasSuffix). -/
def strHasSuf (s p : Str) : Bool := strHasPre s.reverse p.reverse

/-- Whether sub occurs as a contiguous substring of s (strings.Contains). -/
def strContainsSub : Str → Str → Bool
  | [], sub => sub.isEmpty
  | c :: t, sub => strHasPre (c :: t) sub || strContainsSub t sub

/-- White space as Go's strings.TrimSpace sees it (ASCII plus NEL/NBSP). -/
def isGoSpace (c : Char) : Bool :=
  c == ' ' || c == '\t' || c == '\n' || c.toNat == 11 || c.toNat == 12 ||
  c == '\r' || c.toNat == 0x85 || c.toNat == 0xA0

/-- Drop leading white space. -/
def trimLeftGo : Str → Str
  | [] => []
  | c :: t => if isGoSpace c then trimLeftGo t else c :: t

/-- Go's strings.TrimSpace: drop leading and trailing white space. -/
def trimSpaceGo (s : Str) : Str := (trimLeftGo (trimLeftGo s.reverse).reverse)

/-- Go's net/url split helper: cut at the first occurrence of sep; when
cutc, the separator is dropped from the second half.  When sep does not
occur, the second half is empty. -/
def goSplitOnce (sep : Char) (cutc : Bool) : Str → Str × Str
  | [] => ([], [])
  | c :: t =>
    if c == sep then ([], if cutc then t else c :: t)
    else
      let r := goSplitOnce sep cutc t
      (c :: r.1, r.2)

/-- Index of the last occurrence of a character (strings.LastIndex for a
one-character needle). -/
def lastIdxOf (s : Str) (c : Char) : Option Nat :=
  match s with
  | [] => none
  | d :: t =>
    match lastIdxOf t c with
    | some i => some (i + 1)
    | none => if d == c then some 0 else none

/-- Index of the first occurrence of a substring (strings.Index). -/
def idxOfSub : Str → Str → Option Nat
  | [], sub => if sub.isEmpty then some 0 else none
  | c :: t, sub =>
    if strHasPre (c :: t) sub then some 0
    else match idxOfSub t sub with
      | some i => some (i + 1)
      | none => none

/-- ASCII lower-casing of one character (strings.ToLower on the ASCII
subset actually reached by the crawler: schemes and file names). -/
def lowerAscii (c : Char) : Char :=
  if 65 ≤ c.toNat && c.toNat ≤ 90 then Char.ofNat (c.toNat + 32) else c

/-- ASCII letter. -/
def isAlphaGo (c : Char) : Bool :=
  (97 ≤ c.toNat && c.toNat ≤ 122) || (65 ≤ c.toNat && c.toNat ≤ 90)

/-- ASCII digit. -/
def isDigitGo (c : Char) : Bool := 48 ≤ c.toNat && c.toNat ≤ 57

/-! ## Glob patterns

Model of the gobwas/glob patterns the crawler compiles with '/' as the
separator (crawler.go: glob.Compile(p, '/')), for the fragment of the
pattern language the spec exercises: literal characters, `*` (any run of
non-separator characters) and `**` (any run of characters). -/

/-- One compiled glob token. -/
inductive GlobToken
  | lit (c : Char)
  | star
  | superStar
  deriving Repr, DecidableEq

/-- A compiled pattern (glob.Glob with separator '/'). -/
abbrev GlobPat := List GlobToken

/-- Compile a pattern built from literals, `*` and `**`. -/
def compileGlob : Str → GlobPat
  | [] => []
  | '*' :: '*' :: t => .superStar :: compileGlob t
  | '*' :: t => .star :: compileGlob t
  | c :: t => .lit c :: compileGlob t

/-- Fuel-indexed matcher core: `star` consumes any characters except the
separator '/', `superStar` consumes any characters; the whole string must
be consumed. -/
def globMatchF : Nat → GlobPat → Str → Bool
  | 0, _, _ => false
  | _ + 1, [], s => s.isEmpty
  | _ + 1, .lit _ :: _, [] => false
  | fuel + 1, .lit c :: ts, x :: xs => c == x && globMatchF fuel ts xs
  | fuel + 1, .star :: ts, s =>
    globMatchF fuel ts s ||
      (match s with
       | [] => false
       | x :: xs => !(x == '/') && globMatchF fuel (.star :: ts) xs)
  | fuel + 1, .superStar :: ts, s =>
    globMatchF fuel ts s ||
      (match s with
       | [] => false
       | _ :: xs => globMatchF fuel (.superStar :: ts) xs)

/-- Whether a compiled pattern matches the whole string (glob.Glob.Match). -/
def globMatch (g : GlobPat) (s : Str) : Bool :=
  globMatchF (g.length + s.length + 1) g s

/-! ## Go's net/url, the fragment normalizeURLtoString depends on

Shallow embedding of net/url's Parse and URL.String (Go 1.24), including
percent escaping, so that canonicalization can be analysed on every model
string.  Characters stand for bytes; the embedding is exact on ASCII. -/

/-- net/url escaping modes. -/
inductive Encoding
  | path
  | pathSegment
  | host
  | zone
  | userPassword
  | queryComponent
  | fragment
  deriving Repr, DecidableEq

/-- net/url shouldEscape: whether byte c must be percent-escaped in the
given mode. -/
def shouldEscape (c : Char) (mode : Encoding) : Bool :=
  if isAlphaGo c || isDigitGo c then false
  else if (mode == .host || mode == .zone) &&
      (c ∈ ['!', '$', '&', '\'', '(', ')', '*', '+', ',', ';', '=', ':',
            '[', ']', '<', '>', '"']) then false
  else if c ∈ ['-', '_', '.', '~'] then false
  else if c ∈ ['$', '&', '+', ',', '/', ':', ';', '=', '?', '@'] then
    match mode with
    | .path => c == '?'
    | .pathSegment => c == '/' || c == ';' || c == ',' || c == '?'
    | .userPassword => c == '@' || c == '/' || c == '?' || c == ':'
    | .queryComponent => true
    | .fragment => false
    | _ => true
  else if mode == .fragment && c ∈ ['!', '(', ')', '*'] then false
  else true

/-- net/url ishex. -/
def ishex (c : Char) : Bool :=
  isDigitGo c || (97 ≤ c.toNat && c.toNat ≤ 102) || (65 ≤ c.toNat && c.toNat ≤ 70)

/-- net/url unhex. -/
def unhex (c : Char) : Nat :=
  if isDigitGo c then c.toNat - 48
  else if 97 ≤ c.toNat && c.toNat ≤ 102 then c.toNat - 87
  else if 65 ≤ c.toNat && c.toNat ≤ 70 then c.toNat - 55
  else 0

/-- Upper-case hex digit of a value below 16. -/
def hexUpper (n : Nat) : Char :=
  if n < 10 then Char.ofNat (48 + n) else Char.ofNat (55 + n)

/-- Percent-escape one byte, upper-case hex (as net/url escape emits). -/
def escapeChar (c : Char) : Str :=
  ['%', hexUpper (c.toNat % 256 / 16), hexUpper (c.toNat % 256 % 16)]

/-- net/url escape: percent-escape what shouldEscape selects; in
queryComponent mode a space becomes '+'. -/
def escape (s : Str) (mode : Encoding) : Str :=
  (s.map (fun c =>
    if c == ' ' && mode == .queryComponent then ['+']
    else if shouldEscape c mode then escapeChar c
    else [c])).flatten

/-- net/url unescape: decode percent escapes, validating them, with the
mode-specific restrictions on host and zone bytes.  Error payloads are
descriptive only. -/
def unescapeCore (mode : Encoding) : Str → Except Str Str
  | [] => .ok []
  | '%' :: rest =>
    match rest with
    | h1 :: h2 :: t =>
      if !(ishex h1 && ishex h2) then .error (goStr "invalid URL escape")
      else if mode == .host && unhex h1 < 8 && !(h1 == '2' && h2 == '5') then
        .error (goStr "invalid URL escape in host")
      else
        let v := unhex h1 * 16 + unhex h2
        if mode == .zone && !(h1 == '2' && h2 == '5') && v != 32 &&
            shouldEscape (Char.ofNat v) .host then
          .error (goStr "invalid URL escape in zone")
        else do
          let r ← unescapeCore mode t
          .ok (Char.ofNat v :: r)
    | _ => .error (goStr "invalid URL escape")
  | '+' :: t => do
    let r ← unescapeCore mode t
    .ok ((if mode == .queryComponent then ' ' else '+') :: r)
  | c :: t =>
    if (mode == .host || mode == .zone) && c.toNat < 0x80 && shouldEscape c mode then
      .error (goStr "invalid character in host name")
    else do
      let r ← unescapeCore mode t
      .ok (c :: r)

/-- net/url validEncoded: whether s is a valid encoded path/fragment
element as written. -/
def validEncoded (s : Str) (mode : Encoding) : Bool :=
  s.all (fun c =>
    c ∈ ['!', '$', '&', '\'', '(', ')', '*', '+', ',', ';', '=', ':', '@'] ||
    c == '[' || c == ']' || c == '%' || !shouldEscape c mode)

/-- net/url validOptionalPort: empty, or ':' followed by digits only. -/
def validOptionalPort : Str → Bool
  | [] => true
  | ':' :: t => t.all isDigitGo
  | _ => false

/-- net/url validUserinfo. -/
def validUserinfo (s : Str) : Bool :=
  s.all (fun c =>
    isAlphaGo c || isDigitGo c ||
    c ∈ ['-', '.', '_', ':', '~', '!', '$', '&', '\'', '(', ')', '*', '+',
         ',', ';', '=', '%', '@'])

/-- net/url Userinfo. -/
structure Userinfo where
  username : Str
  password : Str
  passwordSet : Bool
  deriving Repr, DecidableEq

/-- net/url URL.  opq is Go's Opaque field. -/
structure GoURL where
  scheme : Str := []
  opq : Str := []
  user : Option Userinfo := none
  host : Str := []
  path : Str := []
  rawPath : Str := []
  omitHost : Bool := false
  forceQuery : Bool := false
  rawQuery : Str := []
  fragment : Str := []
  rawFragment : Str := []
  deriving Repr, DecidableEq

/-- net/url getScheme, with the scanned prefix accumulated in seen. -/
def getSchemeAux (orig : Str) (seen : Str) : Str → Except Str (Str × Str)
  | [] => .ok ([], orig)
  | c :: t =>
    if isAlphaGo c then getSchemeAux orig (seen ++ [c]) t
    else if isDigitGo c || c == '+' || c == '-' || c == '.' then
      if seen.isEmpty then .ok ([], orig) else getSchemeAux orig (seen ++ [c]) t
    else if c == ':' then
      if seen.isEmpty then .error (goStr "missing protocol scheme")
      else .ok (seen, t)
    else .ok ([], orig)

/-- net/url getScheme: split a leading scheme off a raw URL. -/
def getSchemeGo (s : Str) : Except Str (Str × Str) := getSchemeAux s [] s

/-- net/url parseHost. -/
def parseHostGo (host : Str) : Except Str Str :=
  if strHasPre host ['['] then
    match lastIdxOf host ']' with
    | none => .error (goStr "missing ']' in host")
    | some i =>
      let colonPort := host.drop (i + 1)
      if !validOptionalPort colonPort then
        .error (goStr "invalid port after host")
      else
        match idxOfSub (host.take i) (goStr "%25") with
        | some zone => do
          let host1 ← unescapeCore .host (host.take zone)
          let host2 ← unescapeCore .zone ((host.take i).drop zone)
          let host3 ← unescapeCore .host (host.drop i)
          .ok (host1 ++ host2 ++ host3)
        | none => unescapeCore .host host
  else
    match lastIdxOf host ':' with
    | some i =>
      if !validOptionalPort (host.drop i) then
        .error (goStr "invalid port after host")
      else unescapeCore .host host
    | none => unescapeCore .host host

/-- net/url parseAuthority: split userinfo (at the last '@') from the
host. -/
def parseAuthorityGo (authority : Str) : Except Str (Option Userinfo × Str) :=
  match lastIdxOf authority '@' with
  | none => do
    let h ← parseHostGo authority
    .ok (none, h)
  | some i => do
    let h ← parseHostGo (authority.drop (i + 1))
    let userinfo := authority.take i
    if !validUserinfo userinfo then .error (goStr "net/url: invalid userinfo")
    else if !userinfo.contains ':' then do
      let un ← unescapeCore .userPassword userinfo
      .ok (some { username := un, password := [], passwordSet := false }, h)
    else do
      let cut := goSplitOnce ':' true userinfo
      let un ← unescapeCore .userPassword cut.1
      let pw ← unescapeCore .userPassword cut.2
      .ok (some { username := un, password := pw, passwordSet := true }, h)

/-- net/url URL.setPath: store the decoded path, keeping the raw form only
when it differs from re-escaping the decoded one. -/
def setPathGo (p : Str) : Except Str (Str × Str) := do
  let path ← unescapeCore .path p
  if escape path .path == p then .ok (path, [])
  else .ok (path, p)

/-- net/url URL.setFragment, same shape as setPath. -/
def setFragmentGo (f : Str) : Except Str (Str × Str) := do
  let frag ← unescapeCore .fragment f
  if escape frag .fragment == f then .ok (frag, [])
  else .ok (frag, f)

/-- Split before the first occurrence of c, keeping c in the second half
(the authority/path split in net/url parse). -/
def breakAtChar (c : Char) : Str → Str × Str
  | [] => ([], [])
  | d :: t =>
    if d == c then ([], d :: t)
    else
      let r := breakAtChar c t
      (d :: r.1, r.2)

/-- Continuation of net/url parse after scheme and query have been split
off: authority, omitHost and path handling (viaRequest = false). -/
def parseRestGo (scheme : Str) (forceQuery : Bool) (rawQuery : Str)
    (rest : Str) : Except Str GoURL :=
  if (!scheme.isEmpty || !strHasPre rest (goStr "///")) &&
      strHasPre rest (goStr "//") then do
    let br := breakAtChar '/' (rest.drop 2)
    let uh ← parseAuthorityGo br.1
    let pr ← setPathGo br.2
    .ok { scheme := scheme, user := uh.1, host := uh.2,
          path := pr.1, rawPath := pr.2,
          forceQuery := forceQuery, rawQuery := rawQuery }
  else do
    let pr ← setPathGo rest
    .ok { scheme := scheme,
          omitHost := !scheme.isEmpty && strHasPre rest ['/'],
          path := pr.1, rawPath := pr.2,
          forceQuery := forceQuery, rawQuery := rawQuery }

/-- net/url parse with viaRequest = false: the fragment-free part of a
URL. -/
def parseGo (rawURL : Str) : Except Str GoURL :=
  if rawURL.any (fun c => c.toNat < 0x20 || c.toNat == 0x7f) then
    .error (goStr "net/url: invalid control character in URL")
  else if rawURL == ['*'] then
    .ok { path := ['*'] }
  else
    match getSchemeGo rawURL with
    | .error e => .error e
    | .ok sr =>
      let scheme := sr.1.map lowerAscii
      let rest0 := sr.2
      let qs :=
        if strHasSuf rest0 ['?'] && !(strContainsSub rest0.dropLast ['?']) then
          (rest0.dropLast, true, ([] : Str))
        else
          let s2 := goSplitOnce '?' true rest0
          (s2.1, false, s2.2)
      let rest := qs.1
      if !strHasPre rest ['/'] then
        if !scheme.isEmpty then
          .ok { scheme := scheme, opq := rest,
                forceQuery := qs.2.1, rawQuery := qs.2.2 }
        else if ((goSplitOnce '/' true rest).1).contains ':' then
          .error (goStr "first path segment in URL cannot contain colon")
        else parseRestGo scheme qs.2.1 qs.2.2 rest
      else parseRestGo scheme qs.2.1 qs.2.2 rest

/-- net/url Parse: split the fragment off, parse the rest, then attach the
decoded fragment. -/
def urlParse (rawURL : Str) : Except Str GoURL :=
  let sp := goSplitOnce '#' true rawURL
  match parseGo sp.1 with
  | .error e => .error e
  | .ok u =>
    if sp.2.isEmpty then .ok u
    else
      match setFragmentGo sp.2 with
      | .error e => .error e
      | .ok fr => .ok { u with fragment := fr.1, rawFragment := fr.2 }

/-- net/url URL.EscapedPath. -/
def escapedPath (u : GoURL) : Str :=
  let fallback := if u.path == ['*'] then ['*'] else escape u.path .path
  if !u.rawPath.isEmpty && validEncoded u.rawPath .path then
    match unescapeCore .path u.rawPath with
    | .ok p => if p == u.path then u.rawPath else fallback
    | .error _ => fallback
  else fallback

/-- net/url URL.EscapedFragment. -/
def escapedFragment (u : GoURL) : Str :=
  let fallback := escape u.fragment .fragment
  if !u.rawFragment.isEmpty && validEncoded u.rawFragment .fragment then
    match unescapeCore .fragment u.rawFragment with
    | .ok f => if f == u.fragment then u.rawFragment else fallback
    | .error _ => fallback
  else fallback

/-- net/url Userinfo.String. -/
def userinfoString (ui : Userinfo) : Str :=
  escape ui.username .userPassword ++
    (if ui.passwordSet then ':' :: escape ui.password .userPassword else [])

/-- net/url URL.String. -/
def urlString (u : GoURL) : Str :=
  let buf1 := if !u.scheme.isEmpty then u.scheme ++ [':'] else []
  let buf2 :=
    if !u.opq.isEmpty then buf1 ++ u.opq
    else
      let b :=
        if !u.scheme.isEmpty || !u.host.isEmpty || u.user.isSome then
          if u.omitHost && u.host.isEmpty && u.user.isNone then buf1
          else
            let b1 :=
              if !u.host.isEmpty || !u.path.isEmpty || u.user.isSome then
                buf1 ++ ['/', '/']
              else buf1
            let b2 :=
              match u.user with
              | some ui => b1 ++ userinfoString ui ++ ['@']
              | none => b1
            if !u.host.isEmpty then b2 ++ escape u.host .host else b2
        else buf1
      let p := escapedPath u
      let b4 :=
        if !p.isEmpty && p.head? != some '/' && !u.host.isEmpty then b ++ ['/']
        else b
      let b5 :=
        if b4.isEmpty then
          if ((goSplitOnce '/' true p).1).contains ':' then b4 ++ ['.', '/']
          else b4
        else b4
      b5 ++ p
  let buf3 :=
    if u.forceQuery || !u.rawQuery.isEmpty then buf2 ++ ['?'] ++ u.rawQuery
    else buf2
  if !u.fragment.isEmpty then buf3 ++ ['#'] ++ escapedFragment u else buf3

/-- net/url splitHostPort: strip a valid numeric port, then brackets. -/
def splitHostPortGo (hostPort : Str) : Str × Str :=
  let hp :=
    match lastIdxOf hostPort ':' with
    | some i =>
      if validOptionalPort (hostPort.drop i) then
        (hostPort.take i, hostPort.drop (i + 1))
      else (hostPort, [])
    | none => (hostPort, [])
  if strHasPre hp.1 ['['] && strHasSuf hp.1 [']'] then
    ((hp.1.drop 1).dropLast, hp.2)
  else hp

/-- net/url URL.Hostname. -/
def hostnameGo (u : GoURL) : Str := (splitHostPortGo u.host).1

/-! ## URL canonicalization (crawler.go normalizeURLtoString) -/

/-- The bare-fragment test of normalizeURLtoString: everything empty but
the fragment. -/
def isBareFragment (u : GoURL) : Bool :=
  u.scheme.isEmpty && u.host.isEmpty && u.path.isEmpty &&
    u.rawQuery.isEmpty && !u.fragment.isEmpty

/-- The mutations normalizeURLtoString applies to the parsed URL: clear
the fragment; a URL with a host and an empty path gets path "/"; a path
longer than one character loses one trailing '/'. -/
def normalizeMutations (u : GoURL) : GoURL :=
  let u1 := { u with fragment := [] }
  let u2 :=
    if !u1.host.isEmpty && u1.path.isEmpty then { u1 with path := ['/'] }
    else u1
  if u2.path.length > 1 && strHasSuf u2.path ['/'] then
    { u2 with path := u2.path.dropLast }
  else u2

/-- crawler.go normalizeURLtoString: trim, parse, reject bare fragments,
prepend "http://" for scheme-less host-bearing inputs, mutate, and
re-serialize. -/
def normalizeURLtoString (urlStr : Str) : Except Str Str :=
  let trimmed := trimSpaceGo urlStr
  if trimmed.isEmpty then
    .error (goStr "input URL string is empty or only whitespace")
  else
    match urlParse trimmed with
    | .error _ => .error (goStr "failed to parse URL for normalization")
    | .ok parsed0 =>
      if isBareFragment parsed0 then
        .error (goStr "input URL is effectively only a fragment, cannot normalize")
      else
        let parsed :=
          if parsed0.scheme.isEmpty && !parsed0.host.isEmpty &&
              !parsed0.host.contains ':' &&
              (strHasPre trimmed (goStr "//") ||
                !(trimmed.any (fun c => c == '/' || c == '?' || c == '#'))) then
            match urlParse (goStr "http://" ++ trimmed) with
            | .ok u2 => u2
            | .error _ => parsed0
          else parsed0
        .ok (urlString (normalizeMutations parsed))

/-! ## Page records and output formatting -/

/-- processor.go PageData. -/
structure PageData where
  title : Str
  url : Str
  markdown : Str
  rawHTML : Str
  articleHTML : Str
  deriving Repr, DecidableEq

/-- crawler.go JSONOutputPage. -/
structure JSONOutputPage where
  title : Str
  url : Str
  content : Str
  deriving Repr, DecidableEq

/-- The field selection formatResultsAsJSON applies per page. -/
def toJSONPage (pd : PageData) : JSONOutputPage :=
  { title := pd.title, url := pd.url, content := pd.markdown }

/-- processor.go formatPageDataAsXML. -/
def formatPageDataAsXML (page : PageData) : Str :=
  goStr "<page>\n  <title>" ++ page.title ++ goStr "</title>\n  <url>" ++
    page.url ++ goStr "</url>\n  <content>\n" ++ page.markdown ++
    goStr "\n  </content>\n</page>"

/-- strings.Join. -/
def joinSep (sep : Str) : List Str → Str
  | [] => []
  | [x] => x
  | x :: y :: t => x ++ sep ++ joinSep sep (y :: t)

/-- Lower-case hex digit. -/
def hexLower (n : Nat) : Char :=
  if n < 10 then Char.ofNat (48 + n) else Char.ofNat (87 + n)

/-- encoding/json string escaping (ASCII content): quotes, backslash,
controls, and the HTML-safe escapes for angle brackets and ampersand. -/
def jsonEscapeChar (c : Char) : Str :=
  if c == '"' then goStr "\\\""
  else if c == '\\' then goStr "\\\\"
  else if c == '\n' then goStr "\\n"
  else if c == '\r' then goStr "\\r"
  else if c == '\t' then goStr "\\t"
  else if c == '<' then goStr "\\u003c"
  else if c == '>' then goStr "\\u003e"
  else if c == '&' then goStr "\\u0026"
  else if c.toNat < 0x20 then
    goStr "\\u00" ++ [hexLower (c.toNat / 16), hexLower (c.toNat % 16)]
  else [c]

/-- A JSON string literal. -/
def jsonQuote (s : Str) : Str := '"' :: (s.map jsonEscapeChar).flatten ++ ['"']

/-- One page object as json.MarshalIndent(v, "", "  ") lays it out inside
the array. -/
def jsonPageObject (p : JSONOutputPage) : Str :=
  goStr "\x7b\n    \"title\": " ++ jsonQuote p.title ++
    goStr ",\n    \"url\": " ++ jsonQuote p.url ++
    goStr ",\n    \"content\": " ++ jsonQuote p.content ++ goStr "\n  \x7d"

/-- crawler.go formatResultsAsJSON: the empty-list case is the literal
"[]"; otherwise the MarshalIndent layout of the mapped pages. -/
def formatResultsAsJSON (results : List PageData) : Str :=
  if results.length == 0 then goStr "[]"
  else
    goStr "[\n  " ++
      joinSep (goStr ",\n  ") (results.map (fun pd => jsonPageObject (toJSONPage pd))) ++
      goStr "\n]"

/-! ## The fetcher (fetchPageHTML)

Modelled from the source in real, abstract seconds: the environment says
when the navigate-and-serialize subtask would deliver its result and when
the caller's context is cancelled; the 120-second ceiling and the select
race are computed from those.  The subtask's own outcomes (page/browser
state, Goto and Content results) are environment data. -/

/-- A Go error as the crawler observes it: its message, and whether
errors.Is(err, context.DeadlineExceeded) holds. -/
structure FetchErr where
  msg : Str
  isDeadline : Bool
  deriving Repr, DecidableEq

/-- Environment of one fetchPageHTML call. -/
structure FetchEnv where
  pageClosedPre : Bool := false
  browserNilPre : Bool := false
  browserConnectedPre : Bool := true
  gotoErr : Option FetchErr := none
  pageClosedPost : Bool := false
  browserNilPost : Bool := false
  browserConnectedPost : Bool := true
  contentErr : Option FetchErr := none
  contentHTML : Str := []
  subtaskDoneAt : Nat := 0
  parentCancelAt : Option Nat := none
  deriving Repr, DecidableEq

/-- The fixed overall fetch ceiling: opTimeout = 120 * time.Second. -/
def fetchOpTimeoutSeconds : Nat := 120

/-- When context.WithTimeout(parentCtx, opTimeout) fires. -/
def ctxDoneAt (parentCancelAt : Option Nat) : Nat :=
  match parentCancelAt with
  | some t => min t fetchOpTimeoutSeconds
  | none => fetchOpTimeoutSeconds

/-- The error-message substrings fetchPageHTML treats as the automation
target having gone away. -/
def isTargetClosedMsg (m : Str) : Bool :=
  strContainsSub m (goStr "Target page, context or browser has been closed") ||
    strContainsSub m (goStr "Target closed")

/-- Message of the EmptyContent failure. -/
def emptyContentMsg (pageURL : Str) : Str :=
  goStr "fetched HTML content from " ++ pageURL ++ goStr " is empty or whitespace"

/-- The goroutine body of fetchPageHTML: pre-checks, Goto, post-checks,
Content.  Wrapped errors keep the inner error's DeadlineExceeded
identity (fmt.Errorf with %w). -/
def fetchSubtask (fe : FetchEnv) (pageURL : Str) : Except FetchErr Str :=
  if fe.pageClosedPre then
    .error { msg := goStr "playwright page for " ++ pageURL ++
              goStr " is already closed before navigation (Playwright connection issue)",
             isDeadline := false }
  else if fe.browserNilPre || !fe.browserConnectedPre then
    .error { msg := goStr "playwright browser for page " ++ pageURL ++
              goStr " is not connected (Playwright connection issue)",
             isDeadline := false }
  else
    match fe.gotoErr with
    | some ge =>
      if isTargetClosedMsg ge.msg then
        .error { msg := goStr "playwright page.Goto failed for " ++ pageURL ++
                  goStr " (Playwright connection issue): " ++ ge.msg,
                 isDeadline := ge.isDeadline }
      else
        .error { msg := goStr "playwright page.Goto failed for " ++ pageURL ++
                  goStr ": " ++ ge.msg,
                 isDeadline := ge.isDeadline }
    | none =>
      if fe.pageClosedPost then
        .error { msg := goStr "playwright page for " ++ pageURL ++
                  goStr " closed after navigation (Playwright connection issue)",
                 isDeadline := false }
      else if fe.browserNilPost || !fe.browserConnectedPost then
        .error { msg := goStr "playwright browser for page " ++ pageURL ++
                  goStr " disconnected after navigation (Playwright connection issue)",
                 isDeadline := false }
      else
        match fe.contentErr with
        | some ce =>
          if isTargetClosedMsg ce.msg then
            .error { msg := goStr "playwright page.Content failed for " ++ pageURL ++
                      goStr " (Playwright connection issue): " ++ ce.msg,
                     isDeadline := ce.isDeadline }
          else
            .error { msg := goStr "playwright page.Content failed for " ++ pageURL ++
                      goStr ": " ++ ce.msg,
                     isDeadline := ce.isDeadline }
        | none => .ok fe.contentHTML

/-- fetchPageHTML: race the subtask against the bounded context; check the
serialized content for emptiness on the success path.  Returns the result
and the second at which the call returns. -/
def fetchPageHTML (fe : FetchEnv) (pageURL : Str) : (Except FetchErr Str) × Nat :=
  let doneAt := ctxDoneAt fe.parentCancelAt
  if fe.subtaskDoneAt < doneAt then
    match fetchSubtask fe pageURL with
    | .error e => (.error e, fe.subtaskDoneAt)
    | .ok html =>
      if (trimSpaceGo html).isEmpty then
        (.error { msg := emptyContentMsg pageURL, isDeadline := false },
         fe.subtaskDoneAt)
      else (.ok html, fe.subtaskDoneAt)
  else
    let parentFirst :=
      match fe.parentCancelAt with
      | some t => decide (t < fetchOpTimeoutSeconds)
      | none => false
    if parentFirst then
      (.error { msg := goStr "parent context canceled during fetch of " ++ pageURL ++
                 goStr ": context canceled",
                isDeadline := false }, doneAt)
    else
      (.error { msg := goStr "playwright operation for " ++ pageURL ++
                 goStr " context deadline exceeded (overall 2m0s): context deadline exceeded",
                isDeadline := true }, doneAt)

/-! ## The crawl orchestrator (Crawler.Crawl)

The loop is modelled as a fuel-indexed recursion over an explicit state
(queue, visited, results, clock).  The clock advances by one per fetch
call; the environment says at which clock the cancellation token is
observed set, what each fetch returns, whether the browser is connected,
what the content processor yields, and which absolute link strings
goquery + relative resolution would extract from a fetched page. -/

/-- Environment of one crawl run.  pageLinks models
doc.Find("a[href]") plus pageURL.Parse(href).String(): the absolute link
strings of the page, in document order. -/
structure CrawlEnv where
  cancelAt : Option Nat
  fetchAt : Nat → Except FetchErr Str
  browserNil : Bool
  browserConnectedAt : Nat → Bool
  processPage : Str → Str → Option PageData
  pageLinks : Str → Str → List Str

/-- rootCtx.Err() != nil at the given clock. -/
def ctxErr (env : CrawlEnv) (clock : Nat) : Bool :=
  match env.cancelAt with
  | some t => decide (t ≤ clock)
  | none => false

/-- context.Canceled as the retry loop assigns it when the token is
observed before an attempt. -/
def ctxCanceledErr : FetchErr := { msg := goStr "context canceled", isDeadline := false }

/-- Crawler configuration (the Crawler struct fields Crawl reads). -/
structure CrawlConfig where
  isURLListMode : Bool
  initialURLs : List Str
  startURL : GoURL
  pageLimit : Int
  matchPatterns : List GlobPat
  followMatchPatterns : List GlobPat
  outfile : Str

/-- Mutable state of the crawl loop. -/
structure CrawlState where
  queue : List Str
  visited : List Str
  results : List PageData
  clock : Nat
  deriving Repr, DecidableEq

/-- Trace events of a run.  fetchAttempt records how many results were
already saved when the fetch was issued. -/
inductive CrawlEvent
  | dequeued (url : Str)
  | fetchAttempt (url : Str) (resultsBefore : Nat)
  | appended (url : Str)
  | enqueued (url : Str)
  deriving Repr, DecidableEq

/-- Why the loop ended. -/
inductive StopReason
  | queueEmpty
  | cancelled
  | capReached
  | critical
  | fuelOut
  deriving Repr, DecidableEq

/-- The fetch-with-retry block of Crawl (maxRetries = 1): the token is
checked before each attempt; a failed first attempt is retried only when
its error is context.DeadlineExceeded or mentions "Playwright". -/
def fetchWithRetry (env : CrawlEnv) (clock : Nat) (nres : Nat) (url : Str) :
    (Except FetchErr Str) × Nat × List CrawlEvent :=
  if ctxErr env clock then (.error ctxCanceledErr, clock, [])
  else
    match env.fetchAt clock with
    | .ok html => (.ok html, clock + 1, [.fetchAttempt url nres])
    | .error e =>
      if e.isDeadline || strContainsSub e.msg (goStr "Playwright") then
        if ctxErr env (clock + 1) then
          (.error ctxCanceledErr, clock + 1, [.fetchAttempt url nres])
        else
          match env.fetchAt (clock + 1) with
          | .ok html =>
            (.ok html, clock + 2, [.fetchAttempt url nres, .fetchAttempt url nres])
          | .error e2 =>
            (.error e2, clock + 2, [.fetchAttempt url nres, .fetchAttempt url nres])
      else (.error e, clock + 1, [.fetchAttempt url nres])

/-- Crawl's criticality test after retry exhaustion: cancellation
observed, browser disconnected, or one of four connection-layer message
fragments. -/
def classifyCritical (env : CrawlEnv) (clock : Nat) (e : FetchErr) : Bool :=
  ctxErr env clock ||
  (!env.browserNil && !env.browserConnectedAt clock) ||
  strContainsSub e.msg (goStr "browser has been closed") ||
  strContainsSub e.msg (goStr "Target page, context or browser has been closed") ||
  strContainsSub e.msg (goStr "Target closed") ||
  strContainsSub e.msg (goStr "net::ERR_CONNECTION_REFUSED")

/-- The path normalization shared by shouldProcessContent and the
follow-pattern check: empty path is "/", a relative path gets a leading
slash. -/
def normalizePathForMatch (path : Str) : Str :=
  if path.isEmpty then ['/']
  else if !strHasPre path ['/'] then '/' :: path
  else path

/-- crawler.go Crawler.shouldProcessContent over compiled patterns. -/
def shouldProcessContent (matchPatterns : List GlobPat) (pageURL : GoURL) : Bool :=
  if matchPatterns.isEmpty then true
  else matchPatterns.any (fun g => globMatch g (normalizePathForMatch pageURL.path))

/-- The per-link filter pipeline of extractAndFilterLinks, with the
in-page dedup set accumulated: canonicalize, re-parse, keep http(s) links
on the seed host that pass the follow patterns, first occurrence only.
(Go ignores the re-parse error of the just-normalized string; the model
falls back to the zero URL, which the scheme check rejects.) -/
def extractFilterAux (startHost : Str) (followPatterns : List GlobPat) :
    List Str → List Str → List Str
  | [], _ => []
  | href :: t, uniq =>
    match normalizeURLtoString href with
    | .error _ => extractFilterAux startHost followPatterns t uniq
    | .ok norm =>
      let ru := match urlParse norm with | .ok u => u | .error _ => {}
      if !(ru.scheme == goStr "http" || ru.scheme == goStr "https") then
        extractFilterAux startHost followPatterns t uniq
      else if !(hostnameGo ru == startHost) then
        extractFilterAux startHost followPatterns t uniq
      else if !followPatterns.isEmpty &&
          !followPatterns.any (fun g => globMatch g (normalizePathForMatch ru.path)) then
        extractFilterAux startHost followPatterns t uniq
      else if uniq.contains norm then
        extractFilterAux startHost followPatterns t uniq
      else norm :: extractFilterAux startHost followPatterns t (uniq ++ [norm])

/-- crawler.go Crawler.extractAndFilterLinks, over the page's absolute
link strings. -/
def extractAndFilterLinks (startHost : Str) (followPatterns : List GlobPat)
    (hrefs : List Str) : List Str :=
  extractFilterAux startHost followPatterns hrefs []

/-- The enqueue loop over filtered links: skip visited ones; once the
token is observed set, stop adding (Go breaks out of the inner loop);
otherwise mark visited and enqueue in one step. -/
def enqueueLinks (env : CrawlEnv) : List Str → CrawlState → CrawlState × List CrawlEvent
  | [], st => (st, [])
  | l :: ls, st =>
    if st.visited.contains l then enqueueLinks env ls st
    else if ctxErr env st.clock then (st, [])
    else
      let st1 := { st with visited := st.visited ++ [l], queue := st.queue ++ [l] }
      let r := enqueueLinks env ls st1
      (r.1, .enqueued l :: r.2)

/-- One iteration of the crawl loop after the dequeue: page limit check,
re-parse, fetch with retry, criticality, content processing, link
expansion.  Returns the iteration's events, the new state, and a stop
reason when this iteration breaks the loop. -/
def crawlIter (env : CrawlEnv) (cfg : CrawlConfig) (currentURLStr : Str)
    (st1 : CrawlState) : List CrawlEvent × CrawlState × Option StopReason :=
  if cfg.pageLimit > 0 && cfg.pageLimit ≤ (st1.results.length : Int) then
    ([], st1, some .capReached)
  else
    match urlParse currentURLStr with
    | .error _ => ([], st1, none)
    | .ok currentURL =>
      let fr := fetchWithRetry env st1.clock st1.results.length currentURLStr
      let st2 := { st1 with clock := fr.2.1 }
      match fr.1 with
      | .error e =>
        if classifyCritical env st2.clock e then (fr.2.2, st2, some .critical)
        else (fr.2.2, st2, none)
      | .ok html =>
        let pr :=
          if shouldProcessContent cfg.matchPatterns currentURL then
            match env.processPage currentURLStr html with
            | some pd =>
              ({ st2 with results := st2.results ++ [pd] },
               [CrawlEvent.appended currentURLStr])
            | none => (st2, [])
          else (st2, [])
        let lr :=
          if !cfg.isURLListMode &&
              hostnameGo currentURL == hostnameGo cfg.startURL then
            enqueueLinks env
              (extractAndFilterLinks (hostnameGo cfg.startURL)
                cfg.followMatchPatterns (env.pageLinks currentURLStr html))
              pr.1
          else (pr.1, [])
        (fr.2.2 ++ pr.2 ++ lr.2, lr.1, none)

/-- The crawl loop of Crawl, fuel-indexed: cancellation check, dequeue,
then one crawlIter; the loop continues unless the iteration stops it. -/
def crawlLoop (env : CrawlEnv) (cfg : CrawlConfig) :
    Nat → CrawlState → List CrawlEvent × CrawlState × StopReason
  | 0, st => ([], st, .fuelOut)
  | fuel + 1, st =>
    match st.queue with
    | [] => ([], st, .queueEmpty)
    | currentURLStr :: rest =>
      if ctxErr env st.clock then ([], st, .cancelled)
      else
        let it := crawlIter env cfg currentURLStr { st with queue := rest }
        match it.2.2 with
        | some reason => (.dequeued currentURLStr :: it.1, it.2.1, reason)
        | none =>
          let r := crawlLoop env cfg fuel it.2.1
          (.dequeued currentURLStr :: it.1 ++ r.1, r.2)

/-- URL-list-mode seeding: normalize each input, drop invalid ones, keep
the first occurrence of each canonical string.  The resulting list is the
initial queue and also the initial visited set. -/
def seedFixedList : List Str → List Str → List Str
  | [], _ => []
  | u :: t, uniq =>
    match normalizeURLtoString u with
    | .error _ => seedFixedList t uniq
    | .ok n =>
      if uniq.contains n then seedFixedList t uniq
      else n :: seedFixedList t (uniq ++ [n])

/-- What the output phase of Crawl does, as an action: JSON to a .json
outfile, XML text to any other outfile, XML text to stdout.  The writer
is only invoked when results is non-empty. -/
inductive OutputAction
  | writeJSONFile (outfile : Str) (pages : List JSONOutputPage)
  | writeXMLFile (outfile : Str) (content : Str)
  | printXML (content : Str)
  deriving Repr, DecidableEq

/-- The output phase at the end of Crawl. -/
def outputPhase (results : List PageData) (outfile : Str) : Option OutputAction :=
  if results.length > 0 then
    if !outfile.isEmpty && strHasSuf (outfile.map lowerAscii) (goStr ".json") then
      some (.writeJSONFile outfile (results.map toJSONPage))
    else
      let finalOutput := joinSep (goStr "\n\n") (results.map formatPageDataAsXML)
      if !outfile.isEmpty then some (.writeXMLFile outfile finalOutput)
      else some (.printXML finalOutput)
  else none

/-- A finished run of Crawl. -/
structure CrawlRun where
  events : List CrawlEvent
  finalState : CrawlState
  stop : StopReason
  output : Option OutputAction
  deriving Repr, DecidableEq

/-- Crawler.Crawl: seed the queue (the only error return is a failed
normalization of the single-seed start URL), run the loop, then run the
output phase.  An initially empty queue returns before the loop and
produces no output. -/
def crawlGo (env : CrawlEnv) (cfg : CrawlConfig) (fuel : Nat) : Except Str CrawlRun :=
  let seeded : Except Str (List Str) :=
    if cfg.isURLListMode then .ok (seedFixedList cfg.initialURLs [])
    else
      match normalizeURLtoString (urlString cfg.startURL) with
      | .error e => .error (goStr "failed to normalize the initial start URL: " ++ e)
      | .ok n => .ok [n]
  match seeded with
  | .error e => .error e
  | .ok q0 =>
    if q0.isEmpty then
      .ok { events := [],
            finalState := { queue := [], visited := [], results := [], clock := 0 },
            stop := .queueEmpty, output := none }
    else
      let st0 : CrawlState := { queue := q0, visited := q0, results := [], clock := 0 }
      let r := crawlLoop env cfg fuel st0
      .ok { events := r.1, finalState := r.2.1, stop := r.2.2,
            output := outputPhase r.2.1.results cfg.outfile }

/-! ## Helper lemmas -/

theorem strHasPre_nil (s : Str) : strHasPre s [] = true := by
  cases s <;> rfl

theorem strHasPre_append (p s : Str) : strHasPre (p ++ s) p = true := by
  induction p with
  | nil => exact strHasPre_nil _
  | cons c t ih => simp [strHasPre, ih]

theorem globMatch_root (p : Str) :
    globMatch (compileGlob (goStr "/")) p = true ↔ p = goStr "/" := by
  have hg : compileGlob (goStr "/") = [GlobToken.lit '/'] := rfl
  have hr : goStr "/" = ['/'] := rfl
  rw [hg, hr]
  cases p with
  | nil => simp [globMatch, globMatchF]
  | cons c rest =>
    simp only [globMatch, globMatchF, List.length_cons, List.length_singleton]
    constructor
    · intro h
      have h1 := (Bool.and_eq_true _ _).mp h
      have hc : '/' = c := by
        have := h1.1
        simpa [beq_iff_eq] using this
      have hrest : rest = [] := by
        have := h1.2
        simpa [List.isEmpty_iff] using this
      simp [← hc, hrest]
    · intro h
      cases h
      decide

/-- The dequeued URLs of a trace, in order. -/
def dequeuedOf (evs : List CrawlEvent) : List Str :=
  evs.filterMap fun e => match e with | .dequeued u => some u | _ => none

/-- The fetch attempts of a trace: fetched URL and results count at
fetch time. -/
def fetchesOf (evs : List CrawlEvent) : List (Str × Nat) :=
  evs.filterMap fun e => match e with | .fetchAttempt u n => some (u, n) | _ => none

/-- The no-duplicates invariant of the crawl loop: the visited set holds
no duplicates, no URL occurs twice among the processed URLs and the
queue together, and every processed or queued URL is visited. -/
def QInv (P : List Str) (st : CrawlState) : Prop :=
  st.visited.Nodup ∧ (P ++ st.queue).Nodup ∧ ∀ x ∈ P ++ st.queue, x ∈ st.visited

theorem enqueueLinks_clock (env : CrawlEnv) (ls : List Str) (st : CrawlState) :
    (enqueueLinks env ls st).1.clock = st.clock := by
  induction ls generalizing st with
  | nil => rfl
  | cons l t ih =>
    simp only [enqueueLinks]
    split_ifs with h1 h2
    · exact ih st
    · rfl
    · exact ih _

theorem enqueueLinks_results (env : CrawlEnv) (ls : List Str) (st : CrawlState) :
    (enqueueLinks env ls st).1.results = st.results := by
  induction ls generalizing st with
  | nil => rfl
  | cons l t ih =>
    simp only [enqueueLinks]
    split_ifs with h1 h2
    · exact ih st
    · rfl
    · exact ih _

theorem enqueueLinks_visited_front (env : CrawlEnv) (ls : List Str) (st : CrawlState) :
    st.visited <+: (enqueueLinks env ls st).1.visited := by
  induction ls generalizing st with
  | nil => exact List.prefix_refl _
  | cons l t ih =>
    simp only [enqueueLinks]
    split_ifs with h1 h2
    · exact ih st
    · exact List.prefix_refl _
    · show st.visited <+:
        (enqueueLinks env t
          { st with visited := st.visited ++ [l], queue := st.queue ++ [l] }).1.visited
      exact List.IsPrefix.trans (List.prefix_append st.visited [l])
        (ih { st with visited := st.visited ++ [l], queue := st.queue ++ [l] })

theorem enqueueLinks_events_shape (env : CrawlEnv) (ls : List Str) (st : CrawlState) :
    ∀ e ∈ (enqueueLinks env ls st).2, ∃ u, e = CrawlEvent.enqueued u := by
  induction ls generalizing st with
  | nil => intro e he; exact absurd he (by simp [enqueueLinks])
  | cons l t ih =>
    intro e he
    simp only [enqueueLinks] at he
    split_ifs at he with h1 h2
    · exact ih st e he
    · exact absurd he (by simp)
    · rcases List.mem_cons.mp he with h | h
      · exact ⟨l, h⟩
      · exact ih _ e h

theorem enqueueLinks_event_mem (env : CrawlEnv) (ls : List Str) (st : CrawlState)
    (u : Str) (h : CrawlEvent.enqueued u ∈ (enqueueLinks env ls st).2) :
    u ∈ ls ∧ u ∈ (enqueueLinks env ls st).1.visited := by
  induction ls generalizing st with
  | nil => exact absurd h (by simp [enqueueLinks])
  | cons l t ih =>
    simp only [enqueueLinks] at h ⊢
    split_ifs at h with h1 h2
    · have := ih st h
      rw [if_pos h1]
      exact ⟨List.mem_cons_of_mem _ this.1, this.2⟩
    · exact absurd h (by simp)
    · rw [if_neg h1, if_neg h2]
      rcases List.mem_cons.mp h with he | hm
      · cases he
        refine ⟨List.mem_cons_self _ _, ?_⟩
        have hpre := enqueueLinks_visited_front env t
          { st with visited := st.visited ++ [u], queue := st.queue ++ [u] }
        exact hpre.subset (by simp)
      · have := ih _ hm
        exact ⟨List.mem_cons_of_mem _ this.1, this.2⟩

theorem enqueueLinks_inv (env : CrawlEnv) (ls : List Str) (st : CrawlState)
    (P : List Str) (h : QInv P st) : QInv P (enqueueLinks env ls st).1 := by
  induction ls generalizing st with
  | nil => exact h
  | cons l t ih =>
    simp only [enqueueLinks]
    split_ifs with h1 h2
    · exact ih st h
    · exact h
    · apply ih
      have hl : l ∉ st.visited := by
        intro hmem
        exact h1 (by simpa [List.elem_iff] using hmem)
      have hlp : l ∉ P ++ st.queue := fun hm => hl (h.2.2 l hm)
      refine ⟨?_, ?_, ?_⟩
      · have hdisj : st.visited.Disjoint [l] := by
          intro a ha hal
          rw [List.mem_singleton] at hal
          exact hl (hal ▸ ha)
        exact List.nodup_append.mpr ⟨h.1, List.nodup_singleton _, hdisj⟩
      · show (P ++ (st.queue ++ [l])).Nodup
        rw [← List.append_assoc]
        have hdisj : (P ++ st.queue).Disjoint [l] := by
          intro a ha hal
          rw [List.mem_singleton] at hal
          exact hlp (hal ▸ ha)
        exact List.nodup_append.mpr ⟨h.2.1, List.nodup_singleton _, hdisj⟩
      · intro x hx
        show x ∈ st.visited ++ [l]
        rw [← List.append_assoc] at hx
        rcases List.mem_append.mp hx with hx1 | hx2
        · exact List.mem_append_left _ (h.2.2 x hx1)
        · exact List.mem_append_right _ hx2

theorem crawlIter_results_front (env : CrawlEnv) (cfg : CrawlConfig) (u : Str)
    (st1 : CrawlState) : st1.results <+: (crawlIter env cfg u st1).2.1.results := by
  simp only [crawlIter]
  split_ifs with hcap
  · exact List.prefix_refl _
  · cases hp : urlParse u with
    | error e => exact List.prefix_refl _
    | ok cu =>
      cases hf : (fetchWithRetry env st1.clock st1.results.length u).1 with
      | error e =>
        dsimp only
        split_ifs <;> exact List.prefix_refl _
      | ok html =>
        dsimp only
        split_ifs with hm hq
        all_goals try cases hpd : env.processPage u html
        all_goals try simp only [enqueueLinks_results]
        all_goals try dsimp only
        all_goals first
          | exact List.prefix_refl _
          | exact List.prefix_append _ _

theorem fetchWithRetry_events (env : CrawlEnv) (c n : Nat) (u : Str) :
    ∀ e ∈ (fetchWithRetry env c n u).2.2, e = CrawlEvent.fetchAttempt u n := by
  intro e he
  simp only [fetchWithRetry] at he
  by_cases h1 : ctxErr env c = true
  · rw [if_pos h1] at he
    exact absurd he (by simp)
  · rw [if_neg h1] at he
    cases hf : env.fetchAt c with
    | ok html =>
      simp only [hf] at he
      simpa using he
    | error e1 =>
      simp only [hf] at he
      by_cases h2 : (e1.isDeadline || strContainsSub e1.msg (goStr "Playwright")) = true
      · rw [if_pos h2] at he
        by_cases h3 : ctxErr env (c + 1) = true
        · rw [if_pos h3] at he
          simpa using he
        · rw [if_neg h3] at he
          cases hf2 : env.fetchAt (c + 1) with
          | ok html2 =>
            simp only [hf2] at he
            simpa [or_self] using he
          | error e2 =>
            simp only [hf2] at he
            simpa [or_self] using he
      · rw [if_neg h2] at he
        simpa using he

theorem crawlIter_inv (env : CrawlEnv) (cfg : CrawlConfig) (u : Str)
    (st1 : CrawlState) (P : List Str) (h : QInv P st1) :
    QInv P (crawlIter env cfg u st1).2.1 := by
  simp only [crawlIter]
  split_ifs with hcap
  · exact h
  · cases hp : urlParse u with
    | error e => exact h
    | ok cu =>
      cases hf : (fetchWithRetry env st1.clock st1.results.length u).1 with
      | error e =>
        dsimp only
        split_ifs <;> exact h
      | ok html =>
        dsimp only
        split_ifs with hm hq
        all_goals try cases hpd : env.processPage u html
        all_goals first
          | exact h
          | exact enqueueLinks_inv _ _ _ _ h
          | (dsimp only; exact h)
          | (dsimp only; exact enqueueLinks_inv _ _ _ _ h)

theorem enqueueLinks_visited_front_mk (env : CrawlEnv) (ls : List Str)
    (q v : List Str) (r : List PageData) (c : Nat) :
    v <+: (enqueueLinks env ls ⟨q, v, r, c⟩).1.visited :=
  enqueueLinks_visited_front env ls ⟨q, v, r, c⟩

theorem crawlIter_visited_front (env : CrawlEnv) (cfg : CrawlConfig) (u : Str)
    (st1 : CrawlState) : st1.visited <+: (crawlIter env cfg u st1).2.1.visited := by
  simp only [crawlIter]
  split_ifs with hcap
  · exact List.prefix_refl _
  · cases hp : urlParse u with
    | error e => exact List.prefix_refl _
    | ok cu =>
      cases hf : (fetchWithRetry env st1.clock st1.results.length u).1 with
      | error e =>
        dsimp only
        split_ifs <;> exact List.prefix_refl _
      | ok html =>
        dsimp only
        split_ifs with hm hq
        all_goals try cases hpd : env.processPage u html
        all_goals first
          | exact List.prefix_refl _
          | exact enqueueLinks_visited_front_mk _ _ _ _ _ _
          | (dsimp only; exact List.prefix_refl _)
          | (dsimp only; exact enqueueLinks_visited_front_mk _ _ _ _ _ _)

theorem crawlIter_cap (env : CrawlEnv) (cfg : CrawlConfig) (u : Str)
    (st1 : CrawlState)
    (h : (cfg.pageLimit > 0 && cfg.pageLimit ≤ (st1.results.length : Int)) = true) :
    crawlIter env cfg u st1 = ([], st1, some .capReached) := by
  simp [crawlIter, h]

theorem crawlIter_continue_lt (env : CrawlEnv) (cfg : CrawlConfig) (u : Str)
    (st1 : CrawlState) (hnone : (crawlIter env cfg u st1).2.2 ≠ some StopReason.capReached)
    (hcap : 0 < cfg.pageLimit) : (st1.results.length : Int) < cfg.pageLimit := by
  by_contra hge
  have hc : (cfg.pageLimit > 0 && cfg.pageLimit ≤ (st1.results.length : Int)) = true := by
    simp [hcap, not_lt.mp hge]
  rw [crawlIter_cap env cfg u st1 hc] at hnone
  exact hnone rfl

theorem crawlIter_results_le (env : CrawlEnv) (cfg : CrawlConfig) (u : Str)
    (st1 : CrawlState) :
    (crawlIter env cfg u st1).2.1.results.length ≤ st1.results.length + 1 := by
  simp only [crawlIter]
  split_ifs with hcap
  · exact Nat.le_succ _
  · cases hp : urlParse u with
    | error e => exact Nat.le_succ _
    | ok cu =>
      cases hf : (fetchWithRetry env st1.clock st1.results.length u).1 with
      | error e =>
        dsimp only
        split_ifs <;> exact Nat.le_succ _
      | ok html =>
        dsimp only
        split_ifs with hm hq
        all_goals try cases hpd : env.processPage u html
        all_goals try simp only [enqueueLinks_results]
        all_goals simp

theorem crawlIter_events_shape (env : CrawlEnv) (cfg : CrawlConfig) (u : Str)
    (st1 : CrawlState) :
    ∀ e ∈ (crawlIter env cfg u st1).1,
      e = CrawlEvent.fetchAttempt u st1.results.length ∨
      e = CrawlEvent.appended u ∨
      (cfg.isURLListMode = false ∧
        ∃ x hs, e = CrawlEvent.enqueued x ∧
          x ∈ extractAndFilterLinks (hostnameGo cfg.startURL)
            cfg.followMatchPatterns hs) := by
  intro e he
  simp only [crawlIter] at he
  by_cases hcap : (cfg.pageLimit > 0 && cfg.pageLimit ≤ (st1.results.length : Int)) = true
  · rw [if_pos hcap] at he
    exact absurd he (by simp)
  · rw [if_neg hcap] at he
    cases hp : urlParse u with
    | error e2 =>
      simp only [hp] at he
      exact absurd he (by simp)
    | ok cu =>
      simp only [hp] at he
      cases hf : (fetchWithRetry env st1.clock st1.results.length u).1 with
      | error e2 =>
        simp only [hf] at he
        dsimp only at he
        have hin : e ∈ (fetchWithRetry env st1.clock st1.results.length u).2.2 := by
          split_ifs at he <;> exact he
        exact Or.inl (fetchWithRetry_events env st1.clock st1.results.length u e hin)
      | ok html =>
        simp only [hf] at he
        by_cases hq : (!cfg.isURLListMode && hostnameGo cu == hostnameGo cfg.startURL) = true
        all_goals by_cases hm : shouldProcessContent cfg.matchPatterns cu = true
        all_goals first
          | rw [if_pos hq, if_pos hm] at he
          | rw [if_pos hq, if_neg hm] at he
          | rw [if_neg hq, if_pos hm] at he
          | rw [if_neg hq, if_neg hm] at he
        all_goals try cases hpd : env.processPage u html
        all_goals try simp only [hpd] at he
        all_goals try dsimp only at he
        all_goals rcases List.mem_append.mp he with hee | hee
        all_goals try rcases List.mem_append.mp hee with hee2 | hee2
        all_goals try exact Or.inl (fetchWithRetry_events env st1.clock st1.results.length u e hee2)
        all_goals try exact absurd hee2 (List.not_mem_nil e)
        all_goals try exact absurd hee (List.not_mem_nil e)
        all_goals try exact Or.inr (Or.inl (by simpa using hee2))
        all_goals obtain ⟨x, hx⟩ := enqueueLinks_events_shape env _ _ e hee
        all_goals refine Or.inr (Or.inr ⟨?_, x, _, hx, (enqueueLinks_event_mem env _ _ x (hx ▸ hee)).1⟩)
        all_goals simp only [Bool.and_eq_true, Bool.not_eq_true'] at hq
        all_goals exact hq.1

theorem dequeuedOf_cons_dequeued (u : Str) (evs : List CrawlEvent) :
    dequeuedOf (CrawlEvent.dequeued u :: evs) = u :: dequeuedOf evs := rfl

theorem dequeuedOf_append (a b : List CrawlEvent) :
    dequeuedOf (a ++ b) = dequeuedOf a ++ dequeuedOf b := by
  simp [dequeuedOf, List.filterMap_append]

theorem crawlIter_dequeuedOf (env : CrawlEnv) (cfg : CrawlConfig) (u : Str)
    (st1 : CrawlState) : dequeuedOf (crawlIter env cfg u st1).1 = [] := by
  rw [dequeuedOf, List.filterMap_eq_nil_iff]
  intro e he
  rcases crawlIter_events_shape env cfg u st1 e he with h | h | ⟨-, x, hs, h, -⟩ <;>
    simp [h]

theorem crawlLoop_results_front (env : CrawlEnv) (cfg : CrawlConfig) :
    ∀ (fuel : Nat) (st : CrawlState),
      st.results <+: (crawlLoop env cfg fuel st).2.1.results := by
  intro fuel
  induction fuel with
  | zero => intro st; exact List.prefix_refl _
  | succ n ih =>
    intro st
    simp only [crawlLoop]
    cases hq : st.queue with
    | nil => exact List.prefix_refl _
    | cons u rest =>
      dsimp only
      by_cases hc : ctxErr env st.clock = true
      · rw [if_pos hc]
      · rw [if_neg hc]
        cases hstop : (crawlIter env cfg u { st with queue := rest }).2.2 with
        | some r =>
          dsimp only
          exact crawlIter_results_front env cfg u { st with queue := rest }
        | none =>
          dsimp only
          exact List.IsPrefix.trans
            (crawlIter_results_front env cfg u { st with queue := rest }) (ih _)

theorem crawlLoop_visited_front (env : CrawlEnv) (cfg : CrawlConfig) :
    ∀ (fuel : Nat) (st : CrawlState),
      st.visited <+: (crawlLoop env cfg fuel st).2.1.visited := by
  intro fuel
  induction fuel with
  | zero => intro st; exact List.prefix_refl _
  | succ n ih =>
    intro st
    simp only [crawlLoop]
    cases hq : st.queue with
    | nil => exact List.prefix_refl _
    | cons u rest =>
      dsimp only
      by_cases hc : ctxErr env st.clock = true
      · rw [if_pos hc]
      · rw [if_neg hc]
        cases hstop : (crawlIter env cfg u { st with queue := rest }).2.2 with
        | some r =>
          dsimp only
          exact crawlIter_visited_front env cfg u { st with queue := rest }
        | none =>
          dsimp only
          exact List.IsPrefix.trans
            (crawlIter_visited_front env cfg u { st with queue := rest }) (ih _)

theorem QInv_dequeue (P : List Str) (st : CrawlState) (u : Str) (rest : List Str)
    (hq : st.queue = u :: rest) (h : QInv P st) :
    QInv (P ++ [u]) { st with queue := rest } := by
  obtain ⟨h1, h2, h3⟩ := h
  rw [hq] at h2 h3
  refine ⟨h1, ?_, ?_⟩
  · show ((P ++ [u]) ++ rest).Nodup
    rw [List.append_assoc]
    simpa using h2
  · intro x hx
    apply h3
    rw [List.append_assoc] at hx
    simpa using hx

theorem crawlLoop_inv (env : CrawlEnv) (cfg : CrawlConfig) :
    ∀ (fuel : Nat) (st : CrawlState) (P : List Str), QInv P st →
      QInv (P ++ dequeuedOf (crawlLoop env cfg fuel st).1)
        (crawlLoop env cfg fuel st).2.1 := by
  intro fuel
  induction fuel with
  | zero =>
    intro st P h
    simpa [crawlLoop, dequeuedOf] using h
  | succ n ih =>
    intro st P h
    simp only [crawlLoop]
    cases hq : st.queue with
    | nil => simpa [dequeuedOf] using h
    | cons u rest =>
      dsimp only
      by_cases hc : ctxErr env st.clock = true
      · rw [if_pos hc]
        simpa [dequeuedOf] using h
      · rw [if_neg hc]
        have hst1 : QInv (P ++ [u]) { st with queue := rest } := QInv_dequeue P st u rest hq h
        cases hstop : (crawlIter env cfg u { st with queue := rest }).2.2 with
        | some r =>
          dsimp only
          rw [dequeuedOf_cons_dequeued, crawlIter_dequeuedOf]
          have := crawlIter_inv env cfg u { st with queue := rest } (P ++ [u]) hst1
          simpa using this
        | none =>
          dsimp only
          rw [dequeuedOf_append, dequeuedOf_cons_dequeued, crawlIter_dequeuedOf]
          have hmain := ih (crawlIter env cfg u { st with queue := rest }).2.1 (P ++ [u])
            (crawlIter_inv env cfg u { st with queue := rest } (P ++ [u]) hst1)
          have heq : P ++ ((u :: ([] : List Str)) ++ dequeuedOf (crawlLoop env cfg n
              (crawlIter env cfg u { st with queue := rest }).2.1).1) =
            (P ++ [u]) ++ dequeuedOf (crawlLoop env cfg n
              (crawlIter env cfg u { st with queue := rest }).2.1).1 := by
            simp
          rw [heq]
          exact hmain

theorem crawlLoop_cap_bound (env : CrawlEnv) (cfg : CrawlConfig)
    (hcap : 0 < cfg.pageLimit) :
    ∀ (fuel : Nat) (st : CrawlState), (st.results.length : Int) ≤ cfg.pageLimit →
      ((crawlLoop env cfg fuel st).2.1.results.length : Int) ≤ cfg.pageLimit ∧
      ∀ u n, CrawlEvent.fetchAttempt u n ∈ (crawlLoop env cfg fuel st).1 →
        (n : Int) < cfg.pageLimit := by
  intro fuel
  induction fuel with
  | zero =>
    intro st h
    exact ⟨h, by intro u n hm; exact absurd hm (by simp [crawlLoop])⟩
  | succ k ih =>
    intro st h
    simp only [crawlLoop]
    cases hq : st.queue with
    | nil => exact ⟨h, by intro u n hm; exact absurd hm (by simp)⟩
    | cons u rest =>
      dsimp only
      by_cases hc : ctxErr env st.clock = true
      · rw [if_pos hc]
        exact ⟨h, by intro u2 n hm; exact absurd hm (by simp)⟩
      · rw [if_neg hc]
        by_cases hcond : (cfg.pageLimit > 0 &&
            cfg.pageLimit ≤ ((({ st with queue := rest } : CrawlState)).results.length : Int)) = true
        · rw [crawlIter_cap env cfg u _ hcond]
          dsimp only
          refine ⟨h, ?_⟩
          intro u2 n hm
          simp only [List.mem_cons] at hm
          rcases hm with he | he
          · exact absurd he (by simp)
          · exact absurd he (by simp)
        · have hlt : (st.results.length : Int) < cfg.pageLimit := by
            by_contra hge
            push_neg at hge
            apply hcond
            simp only [Bool.and_eq_true, decide_eq_true_eq]
            exact ⟨hcap, hge⟩
          have hiterlen : ((crawlIter env cfg u { st with queue := rest }).2.1.results.length : Int) ≤
              cfg.pageLimit := by
            have hle := crawlIter_results_le env cfg u { st with queue := rest }
            have : ((crawlIter env cfg u { st with queue := rest }).2.1.results.length : Int) ≤
                (st.results.length : Int) + 1 := by exact_mod_cast hle
            omega
          have hfetch : ∀ e ∈ (crawlIter env cfg u { st with queue := rest }).1,
              ∀ u2 n, e = CrawlEvent.fetchAttempt u2 n → (n : Int) < cfg.pageLimit := by
            intro e he u2 n hen
            rcases crawlIter_events_shape env cfg u _ e he with hsh | hsh | ⟨-, x, hs, hsh, -⟩
            · rw [hen] at hsh
              have : n = st.results.length := by
                injection hsh with h1 h2
              rw [this]
              exact hlt
            · rw [hen] at hsh
              exact absurd hsh (by simp)
            · rw [hen] at hsh
              exact absurd hsh (by simp)
          cases hstop : (crawlIter env cfg u { st with queue := rest }).2.2 with
          | some r =>
            dsimp only
            refine ⟨hiterlen, ?_⟩
            intro u2 n hm
            simp only [List.mem_cons] at hm
            rcases hm with he | he
            · exact absurd he (by simp)
            · exact hfetch _ he u2 n rfl
          | none =>
            dsimp only
            have hrec := ih (crawlIter env cfg u { st with queue := rest }).2.1 hiterlen
            refine ⟨hrec.1, ?_⟩
            intro u2 n hm
            simp only [List.cons_append, List.mem_cons, List.mem_append] at hm
            rcases hm with he | he | he
            · exact absurd he (by simp)
            · exact hfetch _ he u2 n rfl
            · exact hrec.2 u2 n he

theorem crawlLoop_cap_immediate (env : CrawlEnv) (cfg : CrawlConfig) (fuel : Nat)
    (st : CrawlState) (u : Str) (rest : List Str) (hq : st.queue = u :: rest)
    (hc : ctxErr env st.clock = false)
    (hcond : (cfg.pageLimit > 0 && cfg.pageLimit ≤ (st.results.length : Int)) = true) :
    crawlLoop env cfg (fuel + 1) st =
      ([CrawlEvent.dequeued u], { st with queue := rest }, .capReached) := by
  simp only [crawlLoop, hq]
  rw [if_neg (by simp [hc])]
  rw [crawlIter_cap env cfg u { st with queue := rest } (by exact hcond)]

theorem seedFixedList_nodup : ∀ (urls uniq : List Str),
    (seedFixedList urls uniq).Nodup ∧ ∀ x ∈ seedFixedList urls uniq, x ∉ uniq := by
  intro urls
  induction urls with
  | nil => intro uniq; exact ⟨List.nodup_nil, by simp [seedFixedList]⟩
  | cons u t ih =>
    intro uniq
    simp only [seedFixedList]
    cases hn : normalizeURLtoString u with
    | error e => exact ih uniq
    | ok n =>
      dsimp only
      by_cases hmem : uniq.contains n = true
      · rw [if_pos hmem]
        exact ih uniq
      · rw [if_neg hmem]
        obtain ⟨htn, htm⟩ := ih (uniq ++ [n])
        have hnn : n ∉ seedFixedList t (uniq ++ [n]) := by
          intro hmm
          exact htm n hmm (by simp)
        refine ⟨List.nodup_cons.mpr ⟨hnn, htn⟩, ?_⟩
        intro x hx
        rcases List.mem_cons.mp hx with hx1 | hx2
        · rw [hx1]
          intro hinu
          exact hmem (by simpa [List.elem_iff] using hinu)
        · intro hinu
          exact htm x hx2 (List.mem_append_left _ hinu)

theorem extractFilterAux_props (startHost : Str) (fp : List GlobPat) :
    ∀ (hrefs uniq : List Str),
      (extractFilterAux startHost fp hrefs uniq).Nodup ∧
      ∀ x ∈ extractFilterAux startHost fp hrefs uniq, x ∉ uniq ∧
        (∃ href ∈ hrefs, normalizeURLtoString href = .ok x) ∧
        ∃ ru, urlParse x = .ok ru ∧
          (ru.scheme = goStr "http" ∨ ru.scheme = goStr "https") ∧
          hostnameGo ru = startHost ∧
          (fp ≠ [] → fp.any (fun g => globMatch g (normalizePathForMatch ru.path)) = true) := by
  intro hrefs
  induction hrefs with
  | nil =>
    intro uniq
    exact ⟨List.nodup_nil, by simp [extractFilterAux]⟩
  | cons href t ih =>
    intro uniq
    have lift : ∀ (uniq2 : List Str),
        (∀ x ∈ extractFilterAux startHost fp t uniq2, x ∉ uniq2 ∧
          (∃ h2 ∈ t, normalizeURLtoString h2 = .ok x) ∧
          ∃ ru, urlParse x = .ok ru ∧
            (ru.scheme = goStr "http" ∨ ru.scheme = goStr "https") ∧
            hostnameGo ru = startHost ∧
            (fp ≠ [] → fp.any (fun g => globMatch g (normalizePathForMatch ru.path)) = true)) →
        ∀ x ∈ extractFilterAux startHost fp t uniq2, x ∉ uniq2 ∧
          (∃ h2 ∈ href :: t, normalizeURLtoString h2 = .ok x) ∧
          ∃ ru, urlParse x = .ok ru ∧
            (ru.scheme = goStr "http" ∨ ru.scheme = goStr "https") ∧
            hostnameGo ru = startHost ∧
            (fp ≠ [] → fp.any (fun g => globMatch g (normalizePathForMatch ru.path)) = true) := by
      intro uniq2 hp x hx
      obtain ⟨h1, ⟨h2, hm2, hn2⟩, h3⟩ := hp x hx
      exact ⟨h1, ⟨h2, List.mem_cons_of_mem _ hm2, hn2⟩, h3⟩
    simp only [extractFilterAux]
    cases hn : normalizeURLtoString href with
    | error e =>
      obtain ⟨ha, hb⟩ := ih uniq
      exact ⟨ha, lift uniq hb⟩
    | ok norm =>
      dsimp only
      cases hru : urlParse norm with
      | error e2 =>
        dsimp only
        rw [if_pos (by decide)]
        obtain ⟨ha, hb⟩ := ih uniq
        exact ⟨ha, lift uniq hb⟩
      | ok ru =>
        dsimp only
        by_cases hsch : (!(ru.scheme == goStr "http" || ru.scheme == goStr "https")) = true
        · rw [if_pos hsch]
          obtain ⟨ha, hb⟩ := ih uniq
          exact ⟨ha, lift uniq hb⟩
        · rw [if_neg hsch]
          by_cases hhost : (!(hostnameGo ru == startHost)) = true
          · rw [if_pos hhost]
            obtain ⟨ha, hb⟩ := ih uniq
            exact ⟨ha, lift uniq hb⟩
          · rw [if_neg hhost]
            by_cases hfp : (!fp.isEmpty &&
                !fp.any (fun g => globMatch g (normalizePathForMatch ru.path))) = true
            · rw [if_pos hfp]
              obtain ⟨ha, hb⟩ := ih uniq
              exact ⟨ha, lift uniq hb⟩
            · rw [if_neg hfp]
              by_cases hdup : uniq.contains norm = true
              · rw [if_pos hdup]
                obtain ⟨ha, hb⟩ := ih uniq
                exact ⟨ha, lift uniq hb⟩
              · rw [if_neg hdup]
                obtain ⟨ha, hb⟩ := ih (uniq ++ [norm])
                have hnotin : norm ∉ extractFilterAux startHost fp t (uniq ++ [norm]) := by
                  intro hmm
                  exact (hb norm hmm).1 (by simp)
                have hprops : (∃ h2 ∈ href :: t, normalizeURLtoString h2 = .ok norm) ∧
                    ∃ ru2, urlParse norm = .ok ru2 ∧
                      (ru2.scheme = goStr "http" ∨ ru2.scheme = goStr "https") ∧
                      hostnameGo ru2 = startHost ∧
                      (fp ≠ [] → fp.any (fun g =>
                        globMatch g (normalizePathForMatch ru2.path)) = true) := by
                  refine ⟨⟨href, List.mem_cons_self _ _, hn⟩, ru, hru, ?_, ?_, ?_⟩
                  · have hb : (!(ru.scheme == goStr "http" || ru.scheme == goStr "https")) = false :=
                      Bool.eq_false_iff.mpr hsch
                    have hor : (ru.scheme == goStr "http" || ru.scheme == goStr "https") = true := by
                      cases hcase : (ru.scheme == goStr "http" || ru.scheme == goStr "https")
                      · rw [hcase] at hb
                        simp at hb
                      · rfl
                    rcases (Bool.or_eq_true _ _).mp hor with h | h
                    · exact Or.inl (by simpa using h)
                    · exact Or.inr (by simpa using h)
                  · have hb : (!(hostnameGo ru == startHost)) = false :=
                      Bool.eq_false_iff.mpr hhost
                    have hh : (hostnameGo ru == startHost) = true := by
                      cases hcase : (hostnameGo ru == startHost)
                      · rw [hcase] at hb
                        simp at hb
                      · rfl
                    simpa using hh
                  · intro hfpne
                    have hne : fp.isEmpty = false := by
                      cases fp with
                      | nil => exact absurd rfl hfpne
                      | cons a b => rfl
                    simp only [hne, Bool.not_false, Bool.true_and, Bool.not_eq_true,
                      Bool.not_eq_true'] at hfp
                    simpa using hfp
                refine ⟨List.nodup_cons.mpr ⟨hnotin, ha⟩, ?_⟩
                intro x hx
                rcases List.mem_cons.mp hx with hx1 | hx2
                · subst hx1
                  refine ⟨?_, hprops.1, hprops.2⟩
                  intro hinu
                  exact hdup (by simpa [List.elem_iff] using hinu)
                · have := lift (uniq ++ [norm]) hb x hx2
                  exact ⟨fun hinu => this.1 (List.mem_append_left _ hinu), this.2.1, this.2.2⟩

/-- Whether an Except is a success. -/
def isOkE {ε α : Type} (x : Except ε α) : Bool :=
  match x with
  | .ok _ => true
  | .error _ => false

/-- Modelled from the spec: the canonicalizer exactly as section 4.1 words
it — trim, fail on empty/whitespace-only, bare-fragment or unparsable
input, then strip the fragment, set path "/" for a host with an empty
path, strip one trailing slash from a longer path, and re-serialize.  It
omits the source's http:// prepending step for scheme-less host-bearing
inputs; comparing it with normalizeURLtoString settles the claim. -/
def specCanonicalize (urlStr : Str) : Except Str Str :=
  let trimmed := trimSpaceGo urlStr
  if trimmed.isEmpty then
    .error (goStr "input URL string is empty or only whitespace")
  else
    match urlParse trimmed with
    | .error _ => .error (goStr "failed to parse URL for normalization")
    | .ok parsed0 =>
      if isBareFragment parsed0 then
        .error (goStr "input URL is effectively only a fragment, cannot normalize")
      else .ok (urlString (normalizeMutations parsed0))

/-- The condition under which normalizeURLtoString prepends "http://"
before applying the mutations: the trimmed input parses scheme-less with
a nonempty colon-free host and is protocol-relative or delimiter-free. -/
def prependTrigger (urlStr : Str) : Bool :=
  let trimmed := trimSpaceGo urlStr
  match urlParse trimmed with
  | .error _ => false
  | .ok u =>
    u.scheme.isEmpty && !u.host.isEmpty && !u.host.contains ':' &&
      (strHasPre trimmed (goStr "//") ||
        !(trimmed.any (fun c => c == '/' || c == '?' || c == '#')))

/-! ## Claim theorems -/

/-- C6: shouldProcessContent is true for every URL when the pattern set is
empty, and otherwise true exactly when some compiled pattern matches the
normalized path; the compiled glob semantics separate path segments at
'/': "/blog/*" matches /blog/post but not /blog/post/edit, "/blog/**"
matches both, and "/" matches only the root path. -/
theorem shouldProcessContent_spec :
    (∀ u : GoURL, shouldProcessContent [] u = true) ∧
    (∀ (pats : List GlobPat) (u : GoURL), pats ≠ [] →
      (shouldProcessContent pats u = true ↔
        ∃ g ∈ pats, globMatch g (normalizePathForMatch u.path) = true)) ∧
    globMatch (compileGlob (goStr "/blog/*")) (goStr "/blog/post") = true ∧
    globMatch (compileGlob (goStr "/blog/*")) (goStr "/blog/post/edit") = false ∧
    globMatch (compileGlob (goStr "/blog/**")) (goStr "/blog/post") = true ∧
    globMatch (compileGlob (goStr "/blog/**")) (goStr "/blog/post/edit") = true ∧
    (∀ p : Str, globMatch (compileGlob (goStr "/")) p = true ↔ p = goStr "/") := by
  refine ⟨?_, ?_, by decide, by decide, by decide, by decide, globMatch_root⟩
  · intro u; rfl
  · intro pats u hne
    have : pats.isEmpty = false := by
      cases pats with
      | nil => exact absurd rfl hne
      | cons a t => rfl
    simp [shouldProcessContent, this, List.any_eq_true]

/-- Witness for shouldProcessContent_spec at concrete inputs. -/
theorem shouldProcessContent_spec_witness :
    shouldProcessContent [compileGlob (goStr "/blog/*")]
      { scheme := goStr "http", host := goStr "x.com", path := goStr "/blog/post" } = true := by
  have h := shouldProcessContent_spec.2.1 [compileGlob (goStr "/blog/*")]
    { scheme := goStr "http", host := goStr "x.com", path := goStr "/blog/post" }
    (by decide)
  exact h.mpr ⟨compileGlob (goStr "/blog/*"), by decide, by decide⟩

/-- C8: fetchPageHTML returns by the fixed 120-second ceiling; a success
always carries non-whitespace HTML; a cancellation of the caller's
context that fires before the deadline yields a non-deadline error whose
message names the parent context, while a pure timeout yields an error
carrying context.DeadlineExceeded — the two are distinguishable. -/
theorem fetchPageHTML_spec :
    (∀ (fe : FetchEnv) (url : Str), (fetchPageHTML fe url).2 ≤ fetchOpTimeoutSeconds) ∧
    (∀ (fe : FetchEnv) (url html : Str), (fetchPageHTML fe url).1 = .ok html →
      (trimSpaceGo html).isEmpty = false) ∧
    (∀ (fe : FetchEnv) (url : Str) (t : Nat), fe.parentCancelAt = some t →
      t < fetchOpTimeoutSeconds → ctxDoneAt fe.parentCancelAt ≤ fe.subtaskDoneAt →
      ∃ e, (fetchPageHTML fe url).1 = .error e ∧ e.isDeadline = false ∧
        strHasPre e.msg (goStr "parent context canceled") = true) ∧
    (∀ (fe : FetchEnv) (url : Str), fe.parentCancelAt = none →
      fetchOpTimeoutSeconds ≤ fe.subtaskDoneAt →
      ∃ e, (fetchPageHTML fe url).1 = .error e ∧ e.isDeadline = true) := by
  refine ⟨?_, ?_, ?_, ?_⟩
  · intro fe url
    have hd : ctxDoneAt fe.parentCancelAt ≤ fetchOpTimeoutSeconds := by
      unfold ctxDoneAt
      cases fe.parentCancelAt with
      | none => exact le_refl _
      | some t => exact min_le_right _ _
    simp only [fetchPageHTML]
    split_ifs with h1 h2
    · have hle := le_of_lt (lt_of_lt_of_le h1 hd)
      rcases hs : fetchSubtask fe url with e | html
      · simp [hs, hle]
      · by_cases he : (trimSpaceGo html).isEmpty <;> simp [hs, he, hle]
    · simpa using hd
    · simpa using hd
  · intro fe url html h
    simp only [fetchPageHTML] at h
    split_ifs at h with h1 h2
    · rcases hs : fetchSubtask fe url with e | html2 <;> simp only [hs] at h
      · exact absurd h (by simp)
      · by_cases he : (trimSpaceGo html2).isEmpty
        · simp [he] at h
        · simp only [he, Bool.false_eq_true, if_false] at h
          have hh : html2 = html := by simpa using h
          rw [← hh]
          simpa using he
  · intro fe url t hc hlt hle
    simp only [fetchPageHTML]
    have hnot : ¬ fe.subtaskDoneAt < ctxDoneAt fe.parentCancelAt := not_lt.mpr hle
    rw [if_neg hnot]
    have hp : (match fe.parentCancelAt with
        | some t => decide (t < fetchOpTimeoutSeconds)
        | none => false) = true := by
      rw [hc]; simpa using hlt
    rw [if_pos hp]
    refine ⟨_, rfl, rfl, ?_⟩
    have hsplit : goStr "parent context canceled during fetch of " ++ url ++ goStr ": context canceled" =
        goStr "parent context canceled" ++
          (goStr " during fetch of " ++ url ++ goStr ": context canceled") := by
      simp [goStr]
    rw [hsplit]
    exact strHasPre_append _ _
  · intro fe url hc hle
    simp only [fetchPageHTML]
    have hd : ctxDoneAt fe.parentCancelAt = fetchOpTimeoutSeconds := by
      unfold ctxDoneAt; rw [hc]
    have hnot : ¬ fe.subtaskDoneAt < ctxDoneAt fe.parentCancelAt := by
      rw [hd]; exact not_lt.mpr hle
    rw [if_neg hnot]
    have hp : (match fe.parentCancelAt with
        | some t => decide (t < fetchOpTimeoutSeconds)
        | none => false) = false := by
      rw [hc]
    rw [if_neg (by rw [hp]; exact Bool.false_ne_true)]
    exact ⟨_, rfl, rfl⟩

/-- Witness for fetchPageHTML_spec: the parent-cancel and pure-timeout
branches at concrete environments, and a concrete success. -/
theorem fetchPageHTML_spec_witness :
    (∃ e, (fetchPageHTML { subtaskDoneAt := 50, parentCancelAt := some 10 }
        (goStr "http://x.com/")).1 = .error e ∧ e.isDeadline = false ∧
        strHasPre e.msg (goStr "parent context canceled") = true) ∧
    (∃ e, (fetchPageHTML { subtaskDoneAt := 500 } (goStr "http://x.com/")).1 = .error e ∧
        e.isDeadline = true) ∧
    (∀ html, (fetchPageHTML { contentHTML := goStr "<html>x</html>", subtaskDoneAt := 3 }
        (goStr "http://x.com/")).1 = .ok html → (trimSpaceGo html).isEmpty = false) := by
  refine ⟨?_, ?_, ?_⟩
  · exact fetchPageHTML_spec.2.2.1 _ _ 10 rfl (by decide) (by decide)
  · exact fetchPageHTML_spec.2.2.2 _ _ rfl (by decide)
  · intro html h
    exact fetchPageHTML_spec.2.1 _ _ html h

/-- C1 counterexample: a protocol-relative input.  The claim predicts the
input with the fragment removed and path "/" filled in, i.e. "//x.com/"
(what specCanonicalize computes), but the code prepends "http://" and
re-parses, producing "http:////x.com". -/
theorem normalize_protocol_relative_counterexample :
    normalizeURLtoString (goStr "//x.com") = .ok (goStr "http:////x.com") ∧
    specCanonicalize (goStr "//x.com") = .ok (goStr "//x.com/") ∧
    (goStr "http:////x.com" : Str) ≠ goStr "//x.com/" :=
  ⟨by decide, by decide, by decide⟩

/-- C1 (amended): normalizeURLtoString fails exactly on empty or
whitespace-only, bare-fragment, or unparsable input; on every input that
does not trigger the http:// prepending step it agrees with the
spec-worded canonicalizer (fragment stripped, "/" filled in for a host
with empty path, one trailing slash stripped, query kept); the four
cited equalities hold. -/
theorem normalize_spec_agreement :
    (∀ s : Str, isOkE (normalizeURLtoString s) = true ↔
      (trimSpaceGo s ≠ [] ∧
        ∃ u, urlParse (trimSpaceGo s) = .ok u ∧ isBareFragment u = false)) ∧
    (∀ s : Str, prependTrigger s = false →
      normalizeURLtoString s = specCanonicalize s) ∧
    normalizeURLtoString (goStr "http://x.com") = .ok (goStr "http://x.com/") ∧
    normalizeURLtoString (goStr "http://x.com/a/") = .ok (goStr "http://x.com/a") ∧
    normalizeURLtoString (goStr "http://x.com/a#f") = .ok (goStr "http://x.com/a") ∧
    isOkE (normalizeURLtoString (goStr "#only")) = false := by
  refine ⟨?_, ?_, by decide, by decide, by decide, by decide⟩
  · intro s
    simp only [normalizeURLtoString]
    by_cases ht : (trimSpaceGo s).isEmpty
    · simp only [ht, if_true]
      constructor
      · intro h
        exact absurd h (by simp [isOkE])
      · intro h
        exact absurd (List.isEmpty_iff.mp ht) h.1
    · simp only [ht, Bool.false_eq_true, if_false]
      have htne : trimSpaceGo s ≠ [] := by
        intro hh
        exact absurd (by simp [hh]) ht
      cases hp : urlParse (trimSpaceGo s) with
      | error e =>
        simp only [isOkE]
        constructor
        · intro h
          exact absurd h (by simp)
        · rintro ⟨-, u, hu, -⟩
          exact absurd hu (by simp [hp])
      | ok u =>
        by_cases hb : isBareFragment u
        · simp only [hb, if_true]
          constructor
          · intro h
            exact absurd h (by simp [isOkE])
          · rintro ⟨-, u2, hu2, hb2⟩
            cases hu2
            rw [hb] at hb2
            exact absurd hb2 (by simp)
        · simp only [hb, Bool.false_eq_true, if_false]
          constructor
          · intro _h
            exact ⟨htne, u, rfl, by simpa using hb⟩
          · intro _h
            rfl
  · intro s hp
    simp only [normalizeURLtoString, specCanonicalize]
    by_cases ht : (trimSpaceGo s).isEmpty
    · simp [ht]
    · simp only [ht, Bool.false_eq_true, if_false]
      cases hu : urlParse (trimSpaceGo s) with
      | error e => rfl
      | ok u =>
        by_cases hb : isBareFragment u
        · simp [hb]
        · simp only [hb, Bool.false_eq_true, if_false]
          have hcond : (u.scheme.isEmpty && !u.host.isEmpty && !u.host.contains ':' &&
              (strHasPre (trimSpaceGo s) (goStr "//") ||
                !((trimSpaceGo s).any (fun c => c == '/' || c == '?' || c == '#')))) = false := by
            have := hp
            simp only [prependTrigger, hu] at this
            exact this
          simp only [hcond, Bool.false_eq_true, if_false]

/-- Witness for normalize_spec_agreement: the no-prepend agreement and
the success characterization at concrete inputs. -/
theorem normalize_spec_agreement_witness :
    normalizeURLtoString (goStr "http://x.com/a/") = specCanonicalize (goStr "http://x.com/a/") ∧
    (isOkE (normalizeURLtoString (goStr "http://x.com/q?a=1")) = true ↔
      (trimSpaceGo (goStr "http://x.com/q?a=1") ≠ [] ∧
        ∃ u, urlParse (trimSpaceGo (goStr "http://x.com/q?a=1")) = .ok u ∧
          isBareFragment u = false)) :=
  ⟨normalize_spec_agreement.2.1 (goStr "http://x.com/a/") (by decide),
   normalize_spec_agreement.1 (goStr "http://x.com/q?a=1")⟩

/-- C9: once seeding has succeeded Crawl returns nil on every terminal
path; the only error return is a failed normalization of the single-seed
start URL, and URL-list mode never returns an error. -/
theorem crawl_return_value :
    (∀ (env : CrawlEnv) (cfg : CrawlConfig) (fuel : Nat), cfg.isURLListMode = true →
      isOkE (crawlGo env cfg fuel) = true) ∧
    (∀ (env : CrawlEnv) (cfg : CrawlConfig) (fuel : Nat), cfg.isURLListMode = false →
      (isOkE (crawlGo env cfg fuel) = true ↔
        isOkE (normalizeURLtoString (urlString cfg.startURL)) = true)) := by
  constructor
  · intro env cfg fuel hm
    simp only [crawlGo, hm, if_true]
    by_cases hq : (seedFixedList cfg.initialURLs []).isEmpty <;> simp [hq, isOkE]
  · intro env cfg fuel hm
    simp only [crawlGo, hm, Bool.false_eq_true, if_false]
    cases hn : normalizeURLtoString (urlString cfg.startURL) with
    | error e => simp [isOkE]
    | ok n => simp [isOkE]

/-- Witness for crawl_return_value at a concrete configuration. -/
theorem crawl_return_value_witness :
    isOkE (crawlGo
      { cancelAt := none, fetchAt := fun _ => .error { msg := [], isDeadline := false },
        browserNil := false, browserConnectedAt := fun _ => true,
        processPage := fun _ _ => none, pageLinks := fun _ _ => [] }
      { isURLListMode := true, initialURLs := [], startURL := {}, pageLimit := 0,
        matchPatterns := [], followMatchPatterns := [], outfile := [] } 5) = true :=
  crawl_return_value.1 _ _ 5 rfl

/-- A concrete page record, for witness runs. -/
def exPage (u : Str) : PageData :=
  { title := goStr "T", url := u, markdown := goStr "M",
    rawHTML := goStr "R", articleHTML := goStr "A" }

/-- An environment where every fetch succeeds. -/
def okEnv : CrawlEnv :=
  { cancelAt := none
    fetchAt := fun _ => .ok (goStr "<html>ok</html>")
    browserNil := false
    browserConnectedAt := fun _ => true
    processPage := fun u _ => some (exPage u)
    pageLinks := fun _ _ => [] }

/-- C2: with a positive result cap the results list never exceeds the
cap, every fetch is issued strictly below the cap, and once the cap is
reached the next loop step stops immediately with capReached even though
the queue still holds URLs. -/
theorem resultCap_invariant :
    (∀ (env : CrawlEnv) (cfg : CrawlConfig) (fuel : Nat) (st : CrawlState),
      0 < cfg.pageLimit → (st.results.length : Int) ≤ cfg.pageLimit →
      ((crawlLoop env cfg fuel st).2.1.results.length : Int) ≤ cfg.pageLimit ∧
      ∀ u n, CrawlEvent.fetchAttempt u n ∈ (crawlLoop env cfg fuel st).1 →
        (n : Int) < cfg.pageLimit) ∧
    (∀ (env : CrawlEnv) (cfg : CrawlConfig) (fuel : Nat) (st : CrawlState)
      (u : Str) (rest : List Str), st.queue = u :: rest →
      ctxErr env st.clock = false → 0 < cfg.pageLimit →
      cfg.pageLimit ≤ (st.results.length : Int) →
      crawlLoop env cfg (fuel + 1) st =
        ([CrawlEvent.dequeued u], { st with queue := rest }, .capReached)) := by
  constructor
  · intro env cfg fuel st h1 h2
    exact crawlLoop_cap_bound env cfg h1 fuel st h2
  · intro env cfg fuel st u rest hq hc h1 h2
    exact crawlLoop_cap_immediate env cfg fuel st u rest hq hc (by simp [h1, h2])

/-- Configuration with a cap of one saved page. -/
def c2Cfg : CrawlConfig :=
  { isURLListMode := true, initialURLs := [], startURL := {}, pageLimit := 1,
    matchPatterns := [], followMatchPatterns := [], outfile := [] }

/-- A state that has already saved one page with one URL still queued. -/
def c2St : CrawlState :=
  { queue := [goStr "http://x.com/b"], visited := [goStr "http://x.com/b"],
    results := [exPage (goStr "http://x.com/a")], clock := 0 }

/-- Witness for resultCap_invariant at a concrete capped state. -/
theorem resultCap_invariant_witness :
    (((crawlLoop okEnv c2Cfg 5 c2St).2.1.results.length : Int) ≤ c2Cfg.pageLimit ∧
      ∀ u n, CrawlEvent.fetchAttempt u n ∈ (crawlLoop okEnv c2Cfg 5 c2St).1 →
        (n : Int) < c2Cfg.pageLimit) ∧
    crawlLoop okEnv c2Cfg (5 + 1) c2St =
      ([CrawlEvent.dequeued (goStr "http://x.com/b")],
        { c2St with queue := [] }, .capReached) :=
  ⟨resultCap_invariant.1 okEnv c2Cfg 5 c2St (by decide) (by decide),
   resultCap_invariant.2 okEnv c2Cfg 5 c2St (goStr "http://x.com/b") [] rfl
     (by decide) (by decide) (by decide)⟩

theorem crawlLoop_dedup_all (env : CrawlEnv) (cfg : CrawlConfig) (fuel : Nat)
    (q0 : List Str) (hnd : q0.Nodup) :
    (crawlLoop env cfg fuel ⟨q0, q0, [], 0⟩).2.1.visited.Nodup ∧
    (dequeuedOf (crawlLoop env cfg fuel ⟨q0, q0, [], 0⟩).1).Nodup ∧
    (crawlLoop env cfg fuel ⟨q0, q0, [], 0⟩).2.1.queue.Nodup ∧
    ∀ x ∈ (crawlLoop env cfg fuel ⟨q0, q0, [], 0⟩).2.1.queue,
      x ∈ (crawlLoop env cfg fuel ⟨q0, q0, [], 0⟩).2.1.visited := by
  have hinv : QInv [] ⟨q0, q0, [], 0⟩ := ⟨hnd, by simpa using hnd, by simp⟩
  obtain ⟨h1, h2, h3⟩ := crawlLoop_inv env cfg fuel _ [] hinv
  rw [List.nil_append] at h2 h3
  exact ⟨h1, h2.of_append_left, h2.of_append_right,
    fun x hx => h3 x (List.mem_append_right _ hx)⟩

/-- C3: in every completed or cancelled run the visited set and the queue
hold no duplicates, no URL is dequeued (processed) twice, every queued
URL is already visited; fixed-list seeding deduplicates its input; and a
link is marked visited at the moment it is enqueued. -/
theorem visited_dedup :
    (∀ (env : CrawlEnv) (cfg : CrawlConfig) (fuel : Nat) (run : CrawlRun),
      crawlGo env cfg fuel = .ok run →
      run.finalState.visited.Nodup ∧ (dequeuedOf run.events).Nodup ∧
      run.finalState.queue.Nodup ∧
      ∀ x ∈ run.finalState.queue, x ∈ run.finalState.visited) ∧
    (∀ urls : List Str, (seedFixedList urls []).Nodup) ∧
    (∀ (env : CrawlEnv) (ls : List Str) (st : CrawlState) (u : Str),
      CrawlEvent.enqueued u ∈ (enqueueLinks env ls st).2 →
      u ∈ (enqueueLinks env ls st).1.visited) := by
  refine ⟨?_, fun urls => (seedFixedList_nodup urls []).1,
    fun env ls st u h => (enqueueLinks_event_mem env ls st u h).2⟩
  intro env cfg fuel run hrun
  cases hm : cfg.isURLListMode with
  | true =>
    simp only [crawlGo, hm, if_true] at hrun
    by_cases hq : (seedFixedList cfg.initialURLs []).isEmpty = true
    · rw [if_pos hq] at hrun
      injection hrun with h
      subst h
      simp [dequeuedOf]
    · rw [if_neg hq] at hrun
      injection hrun with h
      subst h
      exact crawlLoop_dedup_all env cfg fuel _ (seedFixedList_nodup cfg.initialURLs []).1
  | false =>
    simp only [crawlGo, hm, Bool.false_eq_true, if_false] at hrun
    cases hn : normalizeURLtoString (urlString cfg.startURL) with
    | error e =>
      rw [hn] at hrun
      cases hrun
    | ok n =>
      rw [hn] at hrun
      simp only [List.isEmpty_cons, Bool.false_eq_true, if_false] at hrun
      injection hrun with h
      subst h
      exact crawlLoop_dedup_all env cfg fuel [n] (by simp)

/-- A single-URL list configuration. -/
def c3Cfg : CrawlConfig :=
  { isURLListMode := true, initialURLs := [goStr "http://x.com/a", goStr "http://x.com/a/"],
    startURL := {}, pageLimit := 0,
    matchPatterns := [], followMatchPatterns := [], outfile := [] }

/-- Witness for visited_dedup on a concrete run whose seed list holds the
same canonical URL twice. -/
theorem visited_dedup_witness :
    ∃ run, crawlGo okEnv c3Cfg 5 = .ok run ∧ run.finalState.visited.Nodup ∧
      (dequeuedOf run.events).Nodup := by
  cases hrun : crawlGo okEnv c3Cfg 5 with
  | error e =>
    have hok : isOkE (crawlGo okEnv c3Cfg 5) = true := by decide
    rw [hrun] at hok
    exact absurd hok (by simp [isOkE])
  | ok run =>
    have h := visited_dedup.1 okEnv c3Cfg 5 run hrun
    exact ⟨run, rfl, h.1, h.2.1⟩

theorem outputPhase_none_iff (results : List PageData) (outfile : Str) :
    outputPhase results outfile = none ↔ results = [] := by
  unfold outputPhase
  by_cases h : results.length > 0
  · have hne : results ≠ [] := by
      intro hh
      rw [hh] at h
      exact absurd h (by simp)
    rw [if_pos h]
    split_ifs <;> simp [hne]
  · have he : results = [] := by
      cases results with
      | nil => rfl
      | cons a t => exact absurd (by simp) h
    rw [if_neg h]
    simp [he]

theorem outputPhase_json (results : List PageData) (outfile f : Str)
    (pages : List JSONOutputPage)
    (h : outputPhase results outfile = some (.writeJSONFile f pages)) :
    pages = results.map toJSONPage := by
  unfold outputPhase at h
  split_ifs at h with h1 h2
  · injection h with hh
    injection hh with hh1 hh2
    exact hh2.symm
  all_goals first
    | (injection h with hh; cases hh)
    | cases h

/-- C5 (amended): results appended before any terminal event are
preserved (the final results extend every intermediate results list), and
the output phase runs on every terminal path when results is non-empty,
handing the writer exactly the accumulated records; with empty results
Crawl writes nothing at all, although formatResultsAsJSON itself encodes
an empty list as "[]". -/
theorem results_preserved_and_output :
    (∀ (env : CrawlEnv) (cfg : CrawlConfig) (fuel : Nat) (st : CrawlState),
      st.results <+: (crawlLoop env cfg fuel st).2.1.results) ∧
    (∀ (env : CrawlEnv) (cfg : CrawlConfig) (fuel : Nat) (run : CrawlRun),
      crawlGo env cfg fuel = .ok run →
      (run.output = none ↔ run.finalState.results = []) ∧
      ∀ f pages, run.output = some (.writeJSONFile f pages) →
        pages = run.finalState.results.map toJSONPage) ∧
    formatResultsAsJSON [] = goStr "[]" := by
  refine ⟨fun env cfg fuel st => crawlLoop_results_front env cfg fuel st, ?_, by decide⟩
  intro env cfg fuel run hrun
  have hout : run.output = outputPhase run.finalState.results cfg.outfile ∨
      (run.output = none ∧ run.finalState.results = []) := by
    cases hm : cfg.isURLListMode with
    | true =>
      simp only [crawlGo, hm, if_true] at hrun
      by_cases hq : (seedFixedList cfg.initialURLs []).isEmpty = true
      · rw [if_pos hq] at hrun
        injection hrun with h
        subst h
        exact Or.inr ⟨rfl, rfl⟩
      · rw [if_neg hq] at hrun
        injection hrun with h
        subst h
        exact Or.inl rfl
    | false =>
      simp only [crawlGo, hm, Bool.false_eq_true, if_false] at hrun
      cases hn : normalizeURLtoString (urlString cfg.startURL) with
      | error e =>
        rw [hn] at hrun
        cases hrun
      | ok n =>
        rw [hn] at hrun
        simp only [List.isEmpty_cons, Bool.false_eq_true, if_false] at hrun
        injection hrun with h
        subst h
        exact Or.inl rfl
  rcases hout with h | ⟨h1, h2⟩
  · rw [h]
    exact ⟨outputPhase_none_iff _ _, fun f pages hj => outputPhase_json _ _ f pages hj⟩
  · rw [h1, h2]
    exact ⟨by simp, by intro f pages hj; cases hj⟩

/-- An environment whose only fetch fails with EmptyContent. -/
def emptyContentEnv : CrawlEnv :=
  { cancelAt := none
    fetchAt := fun _ => .error { msg := emptyContentMsg (goStr "http://x.com/a"),
                                 isDeadline := false }
    browserNil := false
    browserConnectedAt := fun _ => true
    processPage := fun u _ => some (exPage u)
    pageLinks := fun _ _ => [] }

/-- Single-URL list configuration writing JSON output. -/
def c5Cfg : CrawlConfig :=
  { isURLListMode := true, initialURLs := [goStr "http://x.com/a"], startURL := {},
    pageLimit := 0, matchPatterns := [], followMatchPatterns := [],
    outfile := goStr "out.json" }

/-- C5 counterexample: a run that terminates with empty results performs
no write at all — no empty JSON array is produced — although the JSON
formatter itself would encode the empty list as "[]". -/
theorem empty_results_no_output_counterexample :
    (crawlGo emptyContentEnv c5Cfg 10).map
      (fun run => (run.output, run.finalState.results.length, run.stop)) =
      .ok (none, 0, .queueEmpty) ∧
    formatResultsAsJSON [] = goStr "[]" :=
  ⟨by decide, by decide⟩

/-- The cancellation environment: the token fires after the first fetch. -/
def cancelEnv : CrawlEnv :=
  { cancelAt := some 1
    fetchAt := fun _ => .ok (goStr "<html>ok</html>")
    browserNil := false
    browserConnectedAt := fun _ => true
    processPage := fun u _ => some (exPage u)
    pageLinks := fun _ _ => [] }

/-- Two-URL list configuration writing JSON output. -/
def c5bCfg : CrawlConfig :=
  { isURLListMode := true,
    initialURLs := [goStr "http://x.com/a", goStr "http://x.com/b"], startURL := {},
    pageLimit := 0, matchPatterns := [], followMatchPatterns := [],
    outfile := goStr "out.json" }

/-- Witness for results_preserved_and_output on a concrete cancelled run:
the page saved before cancellation is preserved and written. -/
theorem results_preserved_witness :
    ∃ run, crawlGo cancelEnv c5bCfg 10 = .ok run ∧
      (run.output = none ↔ run.finalState.results = []) ∧
      run.stop = .cancelled ∧ run.finalState.results.length = 1 := by
  cases hrun : crawlGo cancelEnv c5bCfg 10 with
  | error e =>
    have hok : isOkE (crawlGo cancelEnv c5bCfg 10) = true := by decide
    rw [hrun] at hok
    exact absurd hok (by simp [isOkE])
  | ok run =>
    have h := (results_preserved_and_output.2.1 cancelEnv c5bCfg 10 run hrun).1
    have hd : (crawlGo cancelEnv c5bCfg 10).map
        (fun r => (r.stop, r.finalState.results.length)) =
        .ok (StopReason.cancelled, 1) := by decide
    rw [hrun] at hd
    simp only [Except.map] at hd
    injection hd with hd2
    refine ⟨run, rfl, h, ?_, ?_⟩
    · exact congrArg Prod.fst hd2
    · exact congrArg Prod.snd hd2

/-- C7: a link passes SingleSeed link expansion only if it canonicalizes,
re-parses with scheme http or https, lies on the seed host, matches the
follow patterns when any are set, and is the first occurrence on its
page (the output is duplicate-free); every enqueued link comes from that
filter and only outside URL-list mode; with followPatterns = ["/allowed/*"]
a page linking to /allowed/x and /denied/y contributes only /allowed/x, a
cross-host link is discarded, and two same-target links yield one entry. -/
theorem link_expansion_filters :
    (∀ (startHost : Str) (fp : List GlobPat) (hrefs : List Str),
      (extractAndFilterLinks startHost fp hrefs).Nodup) ∧
    (∀ (startHost : Str) (fp : List GlobPat) (hrefs : List Str) (x : Str),
      x ∈ extractAndFilterLinks startHost fp hrefs →
      (∃ href ∈ hrefs, normalizeURLtoString href = .ok x) ∧
      ∃ ru, urlParse x = .ok ru ∧
        (ru.scheme = goStr "http" ∨ ru.scheme = goStr "https") ∧
        hostnameGo ru = startHost ∧
        (fp ≠ [] → fp.any (fun g => globMatch g (normalizePathForMatch ru.path)) = true)) ∧
    (∀ (env : CrawlEnv) (cfg : CrawlConfig) (u : Str) (st1 : CrawlState) (x : Str),
      CrawlEvent.enqueued x ∈ (crawlIter env cfg u st1).1 →
      cfg.isURLListMode = false ∧
      ∃ hs, x ∈ extractAndFilterLinks (hostnameGo cfg.startURL)
        cfg.followMatchPatterns hs) ∧
    extractAndFilterLinks (goStr "x.com") [compileGlob (goStr "/allowed/*")]
      [goStr "http://x.com/allowed/x", goStr "http://x.com/denied/y"] =
      [goStr "http://x.com/allowed/x"] ∧
    extractAndFilterLinks (goStr "x.com") [] [goStr "http://other.example/z"] = [] ∧
    extractAndFilterLinks (goStr "x.com") []
      [goStr "http://x.com/p", goStr "http://x.com/p"] = [goStr "http://x.com/p"] := by
  refine ⟨?_, ?_, ?_, by decide, by decide, by decide⟩
  · intro startHost fp hrefs
    exact (extractFilterAux_props startHost fp hrefs []).1
  · intro startHost fp hrefs x hx
    have h := (extractFilterAux_props startHost fp hrefs []).2 x hx
    exact ⟨h.2.1, h.2.2⟩
  · intro env cfg u st1 x hx
    rcases crawlIter_events_shape env cfg u st1 _ hx with h | h | ⟨hmode, y, hs, hy, hmem⟩
    · exact absurd h (by simp)
    · exact absurd h (by simp)
    · have hxy : x = y := by
        injection hy
      exact ⟨hmode, hs, hxy ▸ hmem⟩

/-- The parsed seed URL http://x.com/. -/
def xSeedURL : GoURL := { scheme := goStr "http", host := goStr "x.com", path := goStr "/" }

/-- An environment whose pages link to an allowed, a denied, a cross-host
and a duplicate target. -/
def linkEnv : CrawlEnv :=
  { cancelAt := none
    fetchAt := fun _ => .ok (goStr "<html>ok</html>")
    browserNil := false
    browserConnectedAt := fun _ => true
    processPage := fun u _ => some (exPage u)
    pageLinks := fun _ _ => [goStr "http://x.com/allowed/x", goStr "http://x.com/denied/y",
                             goStr "http://other.example/z", goStr "http://x.com/allowed/x"] }

/-- Single-seed configuration scoped to /allowed/*. -/
def linkCfg : CrawlConfig :=
  { isURLListMode := false, initialURLs := [], startURL := xSeedURL, pageLimit := 0,
    matchPatterns := [], followMatchPatterns := [compileGlob (goStr "/allowed/*")],
    outfile := [] }

/-- Witness for link_expansion_filters: the per-link properties at the
concrete accepted link, and the enqueue origin at a concrete iteration. -/
theorem link_expansion_filters_witness :
    ((∃ href ∈ [goStr "http://x.com/allowed/x", goStr "http://x.com/denied/y"],
        normalizeURLtoString href = .ok (goStr "http://x.com/allowed/x")) ∧
      ∃ ru, urlParse (goStr "http://x.com/allowed/x") = .ok ru ∧
        (ru.scheme = goStr "http" ∨ ru.scheme = goStr "https") ∧
        hostnameGo ru = goStr "x.com" ∧
        ([compileGlob (goStr "/allowed/*")] ≠ [] →
          ([compileGlob (goStr "/allowed/*")]).any
            (fun g => globMatch g (normalizePathForMatch ru.path)) = true)) ∧
    (linkCfg.isURLListMode = false ∧
      ∃ hs, (goStr "http://x.com/allowed/x") ∈
        extractAndFilterLinks (hostnameGo linkCfg.startURL)
          linkCfg.followMatchPatterns hs) :=
  ⟨link_expansion_filters.2.1 (goStr "x.com") [compileGlob (goStr "/allowed/*")]
      [goStr "http://x.com/allowed/x", goStr "http://x.com/denied/y"]
      (goStr "http://x.com/allowed/x") (by decide),
   link_expansion_filters.2.2.1 linkEnv linkCfg (goStr "http://x.com/")
      { queue := [], visited := [goStr "http://x.com/"], results := [], clock := 0 }
      (goStr "http://x.com/allowed/x") (by decide)⟩

theorem fetchWithRetry_char (env : CrawlEnv) (clock nres : Nat) (url : Str) :
    (fetchWithRetry env clock nres url).2.2.length ≤ 2 ∧
    ((fetchWithRetry env clock nres url).2.2.length = 2 ↔
      (ctxErr env clock = false ∧ ∃ e, env.fetchAt clock = .error e ∧
        (e.isDeadline || strContainsSub e.msg (goStr "Playwright")) = true ∧
        ctxErr env (clock + 1) = false)) := by
  simp only [fetchWithRetry]
  by_cases h1 : ctxErr env clock = true
  · rw [if_pos h1]
    refine ⟨by simp, ?_, ?_⟩
    · intro h
      exact absurd h (by simp)
    · rintro ⟨hc, -⟩
      rw [h1] at hc
      cases hc
  · rw [if_neg h1]
    have hc1 : ctxErr env clock = false := Bool.eq_false_iff.mpr h1
    cases hf : env.fetchAt clock with
    | ok html =>
      refine ⟨by simp, ?_, ?_⟩
      · intro h
        exact absurd h (by simp)
      · rintro ⟨-, e, he, -⟩
        cases he
    | error e1 =>
      dsimp only
      by_cases h2 : (e1.isDeadline || strContainsSub e1.msg (goStr "Playwright")) = true
      · rw [if_pos h2]
        by_cases h3 : ctxErr env (clock + 1) = true
        · rw [if_pos h3]
          refine ⟨by simp, ?_, ?_⟩
          · intro h
            exact absurd h (by simp)
          · rintro ⟨-, e, he, -, hc3⟩
            rw [h3] at hc3
            cases hc3
        · rw [if_neg h3]
          have hc3 : ctxErr env (clock + 1) = false := Bool.eq_false_iff.mpr h3
          cases hf2 : env.fetchAt (clock + 1) with
          | ok html2 =>
            refine ⟨by simp, ?_, ?_⟩
            · intro _h
              exact ⟨hc1, e1, rfl, h2, hc3⟩
            · intro _h
              simp
          | error e2 =>
            refine ⟨by simp, ?_, ?_⟩
            · intro _h
              exact ⟨hc1, e1, rfl, h2, hc3⟩
            · intro _h
              simp
      · rw [if_neg h2]
        refine ⟨by simp, ?_, ?_⟩
        · intro h
          exact absurd h (by simp)
        · rintro ⟨-, e, he, hcond, -⟩
          injection he with he2
          rw [← he2] at hcond
          exact (h2 hcond).elim

theorem crawlIter_error_disposition (env : CrawlEnv) (cfg : CrawlConfig) (u : Str)
    (st1 : CrawlState) (e : FetchErr)
    (hcap : (cfg.pageLimit > 0 && cfg.pageLimit ≤ (st1.results.length : Int)) = false)
    (hok : ∃ cu, urlParse u = .ok cu)
    (hf : (fetchWithRetry env st1.clock st1.results.length u).1 = .error e) :
    crawlIter env cfg u st1 =
      ((fetchWithRetry env st1.clock st1.results.length u).2.2,
       { st1 with clock := (fetchWithRetry env st1.clock st1.results.length u).2.1 },
       if classifyCritical env (fetchWithRetry env st1.clock st1.results.length u).2.1 e = true
         then some .critical else none) := by
  obtain ⟨cu, hcu⟩ := hok
  simp only [crawlIter]
  rw [if_neg (by simp [hcap])]
  rw [hcu]
  dsimp only
  rw [hf]
  have hproj : ({ st1 with clock := (fetchWithRetry env st1.clock st1.results.length u).2.1 } :
      CrawlState).clock = (fetchWithRetry env st1.clock st1.results.length u).2.1 := rfl
  simp only [hproj]
  by_cases hcrit : classifyCritical env
      (fetchWithRetry env st1.clock st1.results.length u).2.1 e = true
  · rw [if_pos hcrit, if_pos hcrit]
  · rw [if_neg hcrit, if_neg hcrit]

/-- C4 (amended): a fetch is attempted at most twice; the retry fires
exactly when the first attempt's error is context.DeadlineExceeded or
its message contains "Playwright" (and no cancellation intervened) — so
EmptyContent and plain navigation failures are not retried; after
exhaustion the error is classified by classifyCritical (cancellation,
browser disconnected, or the four connection-layer message fragments):
critical stops the iteration with reason critical, anything else lets
the loop continue with the next queued item. -/
theorem fetch_retry_policy :
    (∀ (env : CrawlEnv) (clock nres : Nat) (url : Str),
      (fetchWithRetry env clock nres url).2.2.length ≤ 2 ∧
      ((fetchWithRetry env clock nres url).2.2.length = 2 ↔
        (ctxErr env clock = false ∧ ∃ e, env.fetchAt clock = .error e ∧
          (e.isDeadline || strContainsSub e.msg (goStr "Playwright")) = true ∧
          ctxErr env (clock + 1) = false))) ∧
    (∀ (env : CrawlEnv) (cfg : CrawlConfig) (u : Str) (st1 : CrawlState) (e : FetchErr),
      (cfg.pageLimit > 0 && cfg.pageLimit ≤ (st1.results.length : Int)) = false →
      (∃ cu, urlParse u = .ok cu) →
      (fetchWithRetry env st1.clock st1.results.length u).1 = .error e →
      crawlIter env cfg u st1 =
        ((fetchWithRetry env st1.clock st1.results.length u).2.2,
         { st1 with clock := (fetchWithRetry env st1.clock st1.results.length u).2.1 },
         if classifyCritical env
             (fetchWithRetry env st1.clock st1.results.length u).2.1 e = true
           then some .critical else none)) ∧
    strContainsSub (emptyContentMsg (goStr "http://x.com/a")) (goStr "Playwright") = false := by
  exact ⟨fetchWithRetry_char, crawlIter_error_disposition, by decide⟩

/-- The environment of the retry scenario: the first fetch times out, the
second succeeds. -/
def timeoutThenOkEnv : CrawlEnv :=
  { cancelAt := none
    fetchAt := fun t =>
      if t == 0 then
        .error { msg := goStr "playwright operation for http://x.com/a context deadline exceeded (overall 2m0s): context deadline exceeded",
                 isDeadline := true }
      else .ok (goStr "<html>ok</html>")
    browserNil := false
    browserConnectedAt := fun _ => true
    processPage := fun u _ => some (exPage u)
    pageLinks := fun _ _ => [] }

/-- Single-URL list configuration. -/
def oneURLCfg : CrawlConfig :=
  { isURLListMode := true, initialURLs := [goStr "http://x.com/a"], startURL := {},
    pageLimit := 0, matchPatterns := [], followMatchPatterns := [], outfile := [] }

/-- Witness for fetch_retry_policy: a timed-out first attempt is retried
(two fetch attempts, one saved page), and the characterization applied at
the concrete clock. -/
theorem fetch_retry_policy_witness :
    (crawlGo timeoutThenOkEnv oneURLCfg 10).map
      (fun run => ((fetchesOf run.events).length, run.finalState.results.length)) =
      .ok (2, 1) ∧
    ((fetchWithRetry timeoutThenOkEnv 0 0 (goStr "http://x.com/a")).2.2.length = 2 ↔
      (ctxErr timeoutThenOkEnv 0 = false ∧
        ∃ e, timeoutThenOkEnv.fetchAt 0 = .error e ∧
          (e.isDeadline || strContainsSub e.msg (goStr "Playwright")) = true ∧
          ctxErr timeoutThenOkEnv 1 = false)) :=
  ⟨by decide, (fetch_retry_policy.1 timeoutThenOkEnv 0 0 (goStr "http://x.com/a")).2⟩

/-- The environment of the no-retry counterexample: the first fetch fails
with EmptyContent, a second attempt would succeed. -/
def emptyThenOkEnv : CrawlEnv :=
  { cancelAt := none
    fetchAt := fun t =>
      if t == 0 then
        .error { msg := emptyContentMsg (goStr "http://x.com/a"), isDeadline := false }
      else .ok (goStr "<html>ok</html>")
    browserNil := false
    browserConnectedAt := fun _ => true
    processPage := fun u _ => some (exPage u)
    pageLinks := fun _ _ => [] }

/-- C4 counterexample: an EmptyContent fetch error is not retried — the
run performs exactly one fetch attempt and saves nothing, although a
retry would have succeeded; the claim's taxonomy row says EmptyContent is
retried once. -/
theorem emptyContent_not_retried_counterexample :
    (crawlGo emptyThenOkEnv oneURLCfg 10).map
      (fun run => ((fetchesOf run.events).length, run.finalState.results.length, run.stop)) =
      .ok (1, 0, .queueEmpty) := by decide

/-! ## The plain http URL family, for canonicalization idempotence -/

/-- Host characters of the plain family: letters, digits, '-' and '.'
(never escaped in host mode, never space, never a URL delimiter). -/
def hostPlainChar (c : Char) : Bool :=
  isAlphaGo c || isDigitGo c || c == '-' || c == '.'

/-- Path characters of the plain family: the unreserved characters plus
'/' (never escaped in path mode, never a URL delimiter). -/
def pathPlainChar (c : Char) : Bool :=
  isAlphaGo c || isDigitGo c || c == '-' || c == '.' || c == '_' ||
    c == '~' || c == '/'

/-- Query characters of the plain family: unreserved characters plus '='
and '&' (kept verbatim in rawQuery). -/
def queryPlainChar (c : Char) : Bool :=
  isAlphaGo c || isDigitGo c || c == '-' || c == '.' || c == '_' ||
    c == '~' || c == '=' || c == '&'

/-- Assemble an http URL from host, path and query parts. -/
def mkHTTP (h p q : Str) : Str :=
  goStr "http://" ++ h ++ p ++ (if q.isEmpty then [] else '?' :: q)

/-- The canonical path normalizeURLtoString produces: "/" for an empty
path, otherwise one trailing '/' stripped when the length exceeds one. -/
def canonPathPlain (p : Str) : Str :=
  if p.isEmpty then ['/']
  else if p.length > 1 && strHasSuf p ['/'] then p.dropLast
  else p

/-- Side conditions of the plain http family: nonempty plain host; path
empty or '/'-led, plain and not '//'-terminated; plain query. -/
def plainHTTPParts (h p q : Str) : Bool :=
  !h.isEmpty && h.all hostPlainChar &&
    (p.isEmpty ||
      (strHasPre p ['/'] && p.all pathPlainChar && !strHasSuf p (goStr "//"))) &&
    q.all queryPlainChar

/-! ### Character-level facts for the plain family -/

/-- The facts used about a plain host character: it is none of the URL
delimiters, needs no escaping in host mode, and is not white space. -/
def hostCharOK (c : Char) : Bool :=
  !(c == '?') && !(c == '#') && !(c == ':') && !(c == '@') && !(c == '[') &&
    !(c == '/') && !(c == '%') && !(c == '+') && !(c == '*') &&
    !shouldEscape c .host && !isGoSpace c

/-- The facts used about a plain path character. -/
def pathCharOK (c : Char) : Bool :=
  !(c == '?') && !(c == '#') && !(c == '%') && !(c == '+') &&
    !shouldEscape c .path && !isGoSpace c

/-- The facts used about a plain query character. -/
def queryCharOK (c : Char) : Bool :=
  !(c == '?') && !(c == '#') && !isGoSpace c

/-- Each plain class satisfies its fact bundle (checked over the ASCII
range, which the range lemmas below confine the classes to). -/
theorem plainCharOK_below :
    ∀ n < 128,
      (hostPlainChar (Char.ofNat n) = true → hostCharOK (Char.ofNat n) = true) ∧
      (pathPlainChar (Char.ofNat n) = true → pathCharOK (Char.ofNat n) = true) ∧
      (queryPlainChar (Char.ofNat n) = true → queryCharOK (Char.ofNat n) = true) := by
  decide

/-- A plain host character is printable ASCII. -/
theorem hostPlainChar_range (c : Char) (hc : hostPlainChar c = true) :
    33 ≤ c.toNat ∧ c.toNat ≤ 126 := by
  simp only [hostPlainChar, isAlphaGo, isDigitGo, Bool.or_eq_true, Bool.and_eq_true,
    decide_eq_true_eq, beq_iff_eq] at hc
  all_goals repeat rcases hc with hc | hc
  all_goals
    first
      | (obtain ⟨h1, h2⟩ := hc; omega)
      | (subst hc; exact ⟨by decide, by decide⟩)

/-- A plain path character is printable ASCII. -/
theorem pathPlainChar_range (c : Char) (hc : pathPlainChar c = true) :
    33 ≤ c.toNat ∧ c.toNat ≤ 126 := by
  simp only [pathPlainChar, isAlphaGo, isDigitGo, Bool.or_eq_true, Bool.and_eq_true,
    decide_eq_true_eq, beq_iff_eq] at hc
  all_goals repeat rcases hc with hc | hc
  all_goals
    first
      | (obtain ⟨h1, h2⟩ := hc; omega)
      | (subst hc; exact ⟨by decide, by decide⟩)

/-- A plain query character is printable ASCII. -/
theorem queryPlainChar_range (c : Char) (hc : queryPlainChar c = true) :
    33 ≤ c.toNat ∧ c.toNat ≤ 126 := by
  simp only [queryPlainChar, isAlphaGo, isDigitGo, Bool.or_eq_true, Bool.and_eq_true,
    decide_eq_true_eq, beq_iff_eq] at hc
  all_goals repeat rcases hc with hc | hc
  all_goals
    first
      | (obtain ⟨h1, h2⟩ := hc; omega)
      | (subst hc; exact ⟨by decide, by decide⟩)

/-- Transfer of plainCharOK_below to an arbitrary plain host character. -/
theorem hostCharOK_of (c : Char) (hc : hostPlainChar c = true) :
    hostCharOK c = true := by
  have hr := hostPlainChar_range c hc
  have hb := plainCharOK_below c.toNat (by omega)
  rw [Char.ofNat_toNat] at hb
  exact hb.1 hc

/-- Transfer of plainCharOK_below to an arbitrary plain path character. -/
theorem pathCharOK_of (c : Char) (hc : pathPlainChar c = true) :
    pathCharOK c = true := by
  have hr := pathPlainChar_range c hc
  have hb := plainCharOK_below c.toNat (by omega)
  rw [Char.ofNat_toNat] at hb
  exact hb.2.1 hc

/-- Transfer of plainCharOK_below to an arbitrary plain query character. -/
theorem queryCharOK_of (c : Char) (hc : queryPlainChar c = true) :
    queryCharOK c = true := by
  have hr := queryPlainChar_range c hc
  have hb := plainCharOK_below c.toNat (by omega)
  rw [Char.ofNat_toNat] at hb
  exact hb.2.2 hc

/-! ### String-level helper lemmas -/

/-- A prefix is contained in the string. -/
theorem strHasPre_sub (s t : Str) (h : strHasPre s t = true) :
    ∀ c ∈ t, c ∈ s := by
  induction s generalizing t with
  | nil =>
    cases t with
    | nil => intro c hc; cases hc
    | cons d u => cases h
  | cons a s ih =>
    cases t with
    | nil => intro c hc; cases hc
    | cons d u =>
      simp only [strHasPre, Bool.and_eq_true, beq_iff_eq] at h
      intro c hc
      rcases List.mem_cons.mp hc with rfl | hc
      · rw [h.1]; exact List.mem_cons_self _ _
      · exact List.mem_cons_of_mem _ (ih u h.2 c hc)

/-- A suffix is contained in the string. -/
theorem strHasSuf_sub (s t : Str) (h : strHasSuf s t = true) :
    ∀ c ∈ t, c ∈ s := by
  intro c hc
  have := strHasPre_sub s.reverse t.reverse h c (List.mem_reverse.mpr hc)
  exact List.mem_reverse.mp this

/-- A string whose characters are all non-space is untouched by
trimLeftGo. -/
theorem trimLeftGo_of_all (s : Str) (h : ∀ c ∈ s, isGoSpace c = false) :
    trimLeftGo s = s := by
  cases s with
  | nil => rfl
  | cons c t =>
    simp only [trimLeftGo, h c (List.mem_cons_self c t), Bool.false_eq_true, if_false]

/-- A string whose characters are all non-space is untouched by
strings.TrimSpace. -/
theorem trimSpaceGo_of_all (s : Str) (h : ∀ c ∈ s, isGoSpace c = false) :
    trimSpaceGo s = s := by
  unfold trimSpaceGo
  rw [trimLeftGo_of_all s.reverse (fun c hc => h c (List.mem_reverse.mp hc)),
    List.reverse_reverse]
  exact trimLeftGo_of_all s h

/-- Splitting at a character that does not occur returns the whole string
and an empty remainder. -/
theorem goSplitOnce_of_all (sep : Char) (cutc : Bool) (s : Str)
    (h : ∀ c ∈ s, (c == sep) = false) : goSplitOnce sep cutc s = (s, []) := by
  induction s with
  | nil => rfl
  | cons c t ih =>
    simp only [goSplitOnce, h c (List.mem_cons_self c t), Bool.false_eq_true, if_false]
    rw [ih (fun d hd => h d (List.mem_cons_of_mem c hd))]

/-- Splitting with cutc at the first separator occurrence. -/
theorem goSplitOnce_append (sep : Char) (a b : Str)
    (h : ∀ c ∈ a, (c == sep) = false) :
    goSplitOnce sep true (a ++ sep :: b) = (a, b) := by
  induction a with
  | nil => simp [goSplitOnce]
  | cons c t ih =>
    simp only [List.cons_append, goSplitOnce,
      h c (List.mem_cons_self c t), Bool.false_eq_true, if_false, List.append_eq]
    rw [ih (fun d hd => h d (List.mem_cons_of_mem c hd))]

/-- breakAtChar at a character that does not occur. -/
theorem breakAtChar_of_all (sep : Char) (s : Str)
    (h : ∀ c ∈ s, (c == sep) = false) : breakAtChar sep s = (s, []) := by
  induction s with
  | nil => rfl
  | cons c t ih =>
    simp only [breakAtChar, h c (List.mem_cons_self c t), Bool.false_eq_true, if_false]
    rw [ih (fun d hd => h d (List.mem_cons_of_mem c hd))]

/-- breakAtChar at the first separator occurrence, keeping it. -/
theorem breakAtChar_append (sep : Char) (a b : Str)
    (h : ∀ c ∈ a, (c == sep) = false) :
    breakAtChar sep (a ++ sep :: b) = (a, sep :: b) := by
  induction a with
  | nil => simp [breakAtChar]
  | cons c t ih =>
    simp only [List.cons_append, breakAtChar,
      h c (List.mem_cons_self c t), Bool.false_eq_true, if_false, List.append_eq]
    rw [ih (fun d hd => h d (List.mem_cons_of_mem c hd))]

/-- lastIdxOf of a character that does not occur. -/
theorem lastIdxOf_of_all (s : Str) (ch : Char)
    (h : ∀ c ∈ s, (c == ch) = false) : lastIdxOf s ch = none := by
  induction s with
  | nil => rfl
  | cons c t ih =>
    simp only [lastIdxOf, ih (fun d hd => h d (List.mem_cons_of_mem c hd)),
      h c (List.mem_cons_self c t), Bool.false_eq_true, if_false]

/-- unescapeCore is the identity on strings without '%', '+' or
characters the mode would escape. -/
theorem unescapeCore_id (mode : Encoding) (s : Str)
    (h : ∀ c ∈ s, (c == '%') = false ∧ (c == '+') = false ∧
      shouldEscape c mode = false) : unescapeCore mode s = .ok s := by
  induction s with
  | nil => rfl
  | cons c t ih =>
    obtain ⟨h1, h2, h3⟩ := h c (List.mem_cons_self c t)
    have hrec := ih (fun d hd => h d (List.mem_cons_of_mem c hd))
    rw [unescapeCore.eq_def]
    split
    · rename_i heq; simp at heq
    · rename_i rest heq
      rw [List.cons.injEq] at heq
      rw [heq.1] at h1; simp at h1
    · rename_i t2 heq
      rw [List.cons.injEq] at heq
      rw [heq.1] at h2; simp at h2
    · rename_i c2 t2 heq
      rw [List.cons.injEq] at heq
      obtain ⟨h5, h6⟩ := heq
      subst h5; subst h6
      rw [h3, Bool.and_false, if_neg (by simp), hrec]
      rfl

/-- escape is the identity on strings without characters the mode would
escape (outside query-component mode). -/
theorem escape_id (mode : Encoding) (hm : (mode == .queryComponent) = false)
    (s : Str) (h : ∀ c ∈ s, shouldEscape c mode = false) : escape s mode = s := by
  induction s with
  | nil => rfl
  | cons c t ih =>
    have h1 := h c (List.mem_cons_self c t)
    have hrec := ih (fun d hd => h d (List.mem_cons_of_mem c hd))
    simp only [escape, List.map_cons, List.flatten_cons] at hrec ⊢
    rw [if_neg (by simp [hm]), if_neg (by simp [h1]), hrec]
    rfl

/-! ### Facts about the assembled plain URL string -/

/-- Unpack the side conditions of the plain family. -/
theorem plainHTTPParts_unpack (h p q : Str) (hg : plainHTTPParts h p q = true) :
    h ≠ [] ∧ (∀ c ∈ h, hostPlainChar c = true) ∧
      (p = [] ∨ (strHasPre p ['/'] = true ∧ (∀ c ∈ p, pathPlainChar c = true) ∧
        strHasSuf p (goStr "//") = false)) ∧
      (∀ c ∈ q, queryPlainChar c = true) := by
  simp only [plainHTTPParts, Bool.and_eq_true, Bool.or_eq_true, Bool.not_eq_true',
    List.all_eq_true, List.isEmpty_eq_true, List.isEmpty_eq_false] at hg
  obtain ⟨⟨⟨hne, hh⟩, hp⟩, hq⟩ := hg
  refine ⟨hne, hh, ?_, hq⟩
  tauto

/-- Decompose membership in the assembled URL. -/
theorem mem_mkHTTP (h p q : Str) (c : Char) (hc : c ∈ mkHTTP h p q) :
    c ∈ goStr "http://" ∨ c ∈ h ∨ c ∈ p ∨ c = '?' ∨ c ∈ q := by
  simp only [mkHTTP, List.mem_append] at hc
  rcases hc with ((hc | hc) | hc) | hc
  · exact Or.inl hc
  · exact Or.inr (Or.inl hc)
  · exact Or.inr (Or.inr (Or.inl hc))
  · by_cases hq : q.isEmpty = true
    · rw [if_pos hq] at hc; cases hc
    · rw [if_neg hq] at hc
      rcases List.mem_cons.mp hc with rfl | hc
      · exact Or.inr (Or.inr (Or.inr (Or.inl rfl)))
      · exact Or.inr (Or.inr (Or.inr (Or.inr hc)))

/-- Spell out hostCharOK. -/
theorem hostCharOK_spec (c : Char) (h1 : hostCharOK c = true) :
    (c == '?') = false ∧ (c == '#') = false ∧ (c == ':') = false ∧
      (c == '@') = false ∧ (c == '[') = false ∧ (c == '/') = false ∧
      (c == '%') = false ∧ (c == '+') = false ∧ (c == '*') = false ∧
      shouldEscape c .host = false ∧ isGoSpace c = false := by
  simp only [hostCharOK, Bool.and_eq_true, Bool.not_eq_true'] at h1
  tauto

/-- Spell out pathCharOK. -/
theorem pathCharOK_spec (c : Char) (h1 : pathCharOK c = true) :
    (c == '?') = false ∧ (c == '#') = false ∧ (c == '%') = false ∧
      (c == '+') = false ∧ shouldEscape c .path = false ∧ isGoSpace c = false := by
  simp only [pathCharOK, Bool.and_eq_true, Bool.not_eq_true'] at h1
  tauto

/-- Spell out queryCharOK. -/
theorem queryCharOK_spec (c : Char) (h1 : queryCharOK c = true) :
    (c == '?') = false ∧ (c == '#') = false ∧ isGoSpace c = false := by
  simp only [queryCharOK, Bool.and_eq_true, Bool.not_eq_true'] at h1
  tauto

/-- Every character of the assembled plain URL is non-space, not '#', and
not a control character. -/
theorem mkHTTP_char_facts (h p q : Str)
    (hh : ∀ c ∈ h, hostPlainChar c = true)
    (hp : ∀ c ∈ p, pathPlainChar c = true)
    (hq : ∀ c ∈ q, queryPlainChar c = true) :
    ∀ c ∈ mkHTTP h p q,
      isGoSpace c = false ∧ (c == '#') = false ∧
        (decide (c.toNat < 0x20) || (c.toNat == 0x7f)) = false := by
  intro c hc
  rcases mem_mkHTTP h p q c hc with hc | hc | hc | rfl | hc
  · have hlit : goStr "http://" = ['h', 't', 't', 'p', ':', '/', '/'] := rfl
    rw [hlit] at hc
    simp only [List.mem_cons, List.not_mem_nil, or_false] at hc
    rcases hc with rfl | rfl | rfl | rfl | rfl | rfl | rfl <;>
      exact ⟨by decide, by decide, by decide⟩
  · obtain ⟨_, h2, _, _, _, _, _, _, _, _, h11⟩ := hostCharOK_spec c (hostCharOK_of c (hh c hc))
    have hr := hostPlainChar_range c (hh c hc)
    refine ⟨h11, h2, ?_⟩
    rw [decide_eq_false (by omega), beq_eq_false_iff_ne.mpr (by omega)]
    rfl
  · obtain ⟨_, h2, _, _, _, h6⟩ := pathCharOK_spec c (pathCharOK_of c (hp c hc))
    have hr := pathPlainChar_range c (hp c hc)
    refine ⟨h6, h2, ?_⟩
    rw [decide_eq_false (by omega), beq_eq_false_iff_ne.mpr (by omega)]
    rfl
  · refine ⟨by decide, by decide, by decide⟩
  · obtain ⟨_, h2, h3⟩ := queryCharOK_spec c (queryCharOK_of c (hq c hc))
    have hr := queryPlainChar_range c (hq c hc)
    refine ⟨h3, h2, ?_⟩
    rw [decide_eq_false (by omega), beq_eq_false_iff_ne.mpr (by omega)]
    rfl


/-- Bind of a successful Except computation. -/
theorem exceptBind_ok {α β : Type} (x : α) (f : α → Except Str β) :
    (Except.ok x : Except Str α) >>= f = f x := rfl

/-- strHasPre steps through a common head. -/
theorem strHasPre_cons_same (c : Char) (s t : Str) :
    strHasPre (c :: s) (c :: t) = strHasPre s t := by
  simp [strHasPre]

/-! ### The parse pipeline on the plain family -/

/-- getScheme on an http URL. -/
theorem getSchemeGo_http (r : Str) :
    getSchemeGo (goStr "http://" ++ r) = .ok (goStr "http", '/' :: '/' :: r) := rfl

/-- parseHost is the identity on a plain nonempty host. -/
theorem parseHostGo_plain (h : Str) (hne : h ≠ [])
    (hh : ∀ c ∈ h, hostPlainChar c = true) : parseHostGo h = .ok h := by
  have hfacts : ∀ c ∈ h, hostCharOK c = true := fun c hc => hostCharOK_of c (hh c hc)
  have hbr : strHasPre h ['['] = false := by
    cases h with
    | nil => cases hne rfl
    | cons a t =>
      have ha := (hostCharOK_spec a (hfacts a (List.mem_cons_self a t))).2.2.2.2.1
      simp [strHasPre, ha]
  have hcol : lastIdxOf h ':' = none :=
    lastIdxOf_of_all h ':' (fun c hc => (hostCharOK_spec c (hfacts c hc)).2.2.1)
  unfold parseHostGo
  rw [hbr, hcol]
  simp only [Bool.false_eq_true, if_false]
  exact unescapeCore_id .host h (fun c hc =>
    ⟨(hostCharOK_spec c (hfacts c hc)).2.2.2.2.2.2.1,
     (hostCharOK_spec c (hfacts c hc)).2.2.2.2.2.2.2.1,
     (hostCharOK_spec c (hfacts c hc)).2.2.2.2.2.2.2.2.2.1⟩)

/-- parseAuthority on a plain host with no userinfo. -/
theorem parseAuthorityGo_plain (h : Str) (hne : h ≠ [])
    (hh : ∀ c ∈ h, hostPlainChar c = true) :
    parseAuthorityGo h = .ok (none, h) := by
  have hfacts : ∀ c ∈ h, hostCharOK c = true := fun c hc => hostCharOK_of c (hh c hc)
  have hat : lastIdxOf h '@' = none :=
    lastIdxOf_of_all h '@' (fun c hc => (hostCharOK_spec c (hfacts c hc)).2.2.2.1)
  unfold parseAuthorityGo
  rw [hat, parseHostGo_plain h hne hh]
  rfl

/-- setPath is the identity on a plain path. -/
theorem setPathGo_plain (p : Str) (hp : ∀ c ∈ p, pathPlainChar c = true) :
    setPathGo p = .ok (p, []) := by
  have hfacts : ∀ c ∈ p, pathCharOK c = true := fun c hc => pathCharOK_of c (hp c hc)
  have hu : unescapeCore .path p = .ok p := unescapeCore_id .path p (fun c hc =>
    ⟨(pathCharOK_spec c (hfacts c hc)).2.2.1,
     (pathCharOK_spec c (hfacts c hc)).2.2.2.1,
     (pathCharOK_spec c (hfacts c hc)).2.2.2.2.1⟩)
  have hesc : escape p .path = p := escape_id .path rfl p (fun c hc =>
    (pathCharOK_spec c (hfacts c hc)).2.2.2.2.1)
  unfold setPathGo
  rw [hu, exceptBind_ok]
  rw [hesc, beq_self_eq_true]
  rfl

/-- parseRest on the plain family: authority h, path p. -/
theorem parseRestGo_plain (h p q : Str) (hne : h ≠ [])
    (hh : ∀ c ∈ h, hostPlainChar c = true)
    (hp0 : p = [] ∨ (strHasPre p ['/'] = true ∧ ∀ c ∈ p, pathPlainChar c = true)) :
    parseRestGo (goStr "http") false q ('/' :: '/' :: (h ++ p)) =
      .ok { scheme := goStr "http", host := h, path := p,
            forceQuery := false, rawQuery := q } := by
  have hnos : ∀ c ∈ h, (c == '/') = false := fun c hc =>
    (hostCharOK_spec c (hostCharOK_of c (hh c hc))).2.2.2.2.2.1
  have hpc : ∀ c ∈ p, pathPlainChar c = true := by
    rcases hp0 with rfl | ⟨_, hpc⟩
    · intro c hc; cases hc
    · exact hpc
  have hb : breakAtChar '/' (h ++ p) = (h, p) := by
    rcases hp0 with rfl | ⟨hpre, _⟩
    · rw [List.append_nil]; exact breakAtChar_of_all '/' h hnos
    · cases p with
      | nil => cases hpre
      | cons a t =>
        have ha : a = '/' := by
          simp only [strHasPre, Bool.and_eq_true, beq_iff_eq] at hpre
          exact hpre.1
        subst ha
        exact breakAtChar_append '/' h t hnos
  have hg2 : goStr "//" = ['/', '/'] := rfl
  have hcond : ((!List.isEmpty (goStr "http") ||
      !strHasPre ('/' :: '/' :: (h ++ p)) (goStr "///")) &&
      strHasPre ('/' :: '/' :: (h ++ p)) (goStr "//")) = true := by
    have h1 : (!List.isEmpty (goStr "http")) = true := rfl
    rw [h1, Bool.true_or, Bool.true_and, hg2, strHasPre_cons_same,
      strHasPre_cons_same]
    cases hx : h ++ p with
    | nil => rfl
    | cons a t => rfl
  unfold parseRestGo
  rw [if_pos hcond]
  have hdrop : (('/' :: '/' :: (h ++ p) : Str).drop 2) = h ++ p := rfl
  rw [hdrop, hb]
  simp [parseAuthorityGo_plain h hne hh, setPathGo_plain p hpc, exceptBind_ok]

/-- parseGo on the plain family. -/
theorem parseGo_plain (h p q : Str) (hg : plainHTTPParts h p q = true) :
    parseGo (mkHTTP h p q) =
      .ok { scheme := goStr "http", host := h, path := p,
            forceQuery := false, rawQuery := q } := by
  obtain ⟨hne, hh, hp0, hqc⟩ := plainHTTPParts_unpack h p q hg
  have hpc : ∀ c ∈ p, pathPlainChar c = true := by
    rcases hp0 with rfl | ⟨_, hpc, _⟩
    · intro c hc; cases hc
    · exact hpc
  have hcf := mkHTTP_char_facts h p q hh hpc hqc
  have hctl : ((mkHTTP h p q).any fun c => c.toNat < 0x20 || c.toNat == 0x7f) = false :=
    List.any_eq_false.mpr (fun c hc => by rw [(hcf c hc).2.2]; simp)
  have hstar : (mkHTTP h p q == ['*']) = false := by
    rw [beq_eq_false_iff_ne]
    intro he
    have hhead : (mkHTTP h p q).head? = some 'h' := rfl
    rw [he] at hhead
    simp at hhead
  have hApre : ∀ c ∈ ('/' :: '/' :: (h ++ p) : Str), (c == '?') = false := by
    intro c hc
    simp only [List.mem_cons, List.mem_append] at hc
    rcases hc with rfl | rfl | hc | hc
    · decide
    · decide
    · exact (hostCharOK_spec c (hostCharOK_of c (hh c hc))).1
    · exact (pathCharOK_spec c (pathCharOK_of c (hpc c hc))).1
  by_cases hqe : q = []
  · subst hqe
    have hmk : mkHTTP h p [] = goStr "http://" ++ (h ++ p) := by
      simp [mkHTTP, List.append_assoc]
    rw [hmk] at hctl hstar ⊢
    have hsch : getSchemeGo (goStr "http://" ++ (h ++ p)) =
        .ok (goStr "http", '/' :: '/' :: (h ++ p)) := getSchemeGo_http (h ++ p)
    have hq1 : strHasSuf ('/' :: '/' :: (h ++ p) : Str) ['?'] = false := by
      rw [Bool.eq_false_iff]
      intro hx
      have hmem := strHasSuf_sub _ _ hx '?' (by simp)
      have := hApre '?' hmem
      simp at this
    have hsplit : goSplitOnce '?' true ('/' :: '/' :: (h ++ p) : Str) =
        ('/' :: '/' :: (h ++ p), []) := goSplitOnce_of_all '?' true _ hApre
    unfold parseGo
    rw [hctl, hstar]
    simp only [Bool.false_eq_true, if_false]
    rw [hsch]
    dsimp only
    rw [hq1]
    simp only [Bool.false_and, Bool.false_eq_true, if_false]
    rw [hsplit]
    dsimp only
    rw [strHasPre_cons_same]
    have hmap : (goStr "http").map lowerAscii = goStr "http" := rfl
    rw [hmap]
    have hpre2 : strHasPre ('/' :: (h ++ p) : Str) [] = true := strHasPre_nil _
    rw [hpre2]
    simp only [Bool.not_true, Bool.false_eq_true, if_false]
    exact parseRestGo_plain h p [] hne hh (by
      rcases hp0 with rfl | ⟨h1, h2, _⟩
      · exact Or.inl rfl
      · exact Or.inr ⟨h1, h2⟩)
  · have hqp : (if q.isEmpty then ([] : Str) else '?' :: q) = '?' :: q := by
      rw [if_neg]
      intro hx
      exact hqe (List.isEmpty_eq_true.mp hx)
    have hmk : mkHTTP h p q = goStr "http://" ++ ((h ++ p) ++ '?' :: q) := by
      unfold mkHTTP
      rw [hqp]
      simp [List.append_assoc]
    rw [hmk] at hctl hstar ⊢
    have hsch : getSchemeGo (goStr "http://" ++ ((h ++ p) ++ '?' :: q)) =
        .ok (goStr "http", '/' :: '/' :: ((h ++ p) ++ '?' :: q)) :=
      getSchemeGo_http ((h ++ p) ++ '?' :: q)
    have hq1 : strHasSuf ('/' :: '/' :: ((h ++ p) ++ '?' :: q) : Str) ['?'] = false := by
      show strHasSuf (('/' :: '/' :: (h ++ p) : Str) ++ '?' :: q) ['?'] = false
      unfold strHasSuf
      show strHasPre ((('/' :: '/' :: (h ++ p) : Str) ++ '?' :: q).reverse) ['?'] = false
      have hrev : (('/' :: '/' :: (h ++ p) : Str) ++ '?' :: q).reverse =
          q.reverse ++ '?' :: ('/' :: '/' :: (h ++ p) : Str).reverse := by
        rw [List.reverse_append, List.reverse_cons, List.append_assoc]
        rfl
      rw [hrev]
      cases hqr : q.reverse with
      | nil =>
        exact absurd (List.reverse_eq_nil_iff.mp hqr) hqe
      | cons r0 rt =>
        have hr0 : r0 ∈ q := by
          have : r0 ∈ q.reverse := by rw [hqr]; exact List.mem_cons_self _ _
          exact List.mem_reverse.mp this
        have hne0 := (queryCharOK_spec r0 (queryCharOK_of r0 (hqc r0 hr0))).1
        simp [strHasPre, hne0]
    have hsplit : goSplitOnce '?' true ('/' :: '/' :: ((h ++ p) ++ '?' :: q) : Str) =
        ('/' :: '/' :: (h ++ p), q) := goSplitOnce_append '?' _ q hApre
    unfold parseGo
    rw [hctl, hstar]
    simp only [Bool.false_eq_true, if_false]
    rw [hsch]
    dsimp only
    rw [hq1]
    simp only [Bool.false_and, Bool.false_eq_true, if_false]
    rw [hsplit]
    dsimp only
    rw [strHasPre_cons_same]
    have hmap : (goStr "http").map lowerAscii = goStr "http" := rfl
    rw [hmap]
    have hpre2 : strHasPre ('/' :: (h ++ p) : Str) [] = true := strHasPre_nil _
    rw [hpre2]
    simp only [Bool.not_true, Bool.false_eq_true, if_false]
    exact parseRestGo_plain h p q hne hh (by
      rcases hp0 with rfl | ⟨h1, h2, _⟩
      · exact Or.inl rfl
      · exact Or.inr ⟨h1, h2⟩)

/-- net/url Parse on the plain family. -/
theorem urlParse_plain (h p q : Str) (hg : plainHTTPParts h p q = true) :
    urlParse (mkHTTP h p q) =
      .ok { scheme := goStr "http", host := h, path := p,
            forceQuery := false, rawQuery := q } := by
  obtain ⟨hne, hh, hp0, hqc⟩ := plainHTTPParts_unpack h p q hg
  have hpc : ∀ c ∈ p, pathPlainChar c = true := by
    rcases hp0 with rfl | ⟨_, hpc, _⟩
    · intro c hc; cases hc
    · exact hpc
  have hcf := mkHTTP_char_facts h p q hh hpc hqc
  have hhash : goSplitOnce '#' true (mkHTTP h p q) = (mkHTTP h p q, []) :=
    goSplitOnce_of_all '#' true _ (fun c hc => (hcf c hc).2.1)
  unfold urlParse
  rw [hhash]
  dsimp only
  rw [parseGo_plain h p q hg]
  rfl

/-! ### Mutations and re-serialization on the plain family -/

/-- The canonical path starts with '/'. -/
theorem canonPathPlain_shape (p : Str)
    (hp0 : p = [] ∨ strHasPre p ['/'] = true) :
    ∃ t, canonPathPlain p = '/' :: t := by
  rcases hp0 with rfl | hpre
  · exact ⟨[], rfl⟩
  · cases p with
    | nil => cases hpre
    | cons a t =>
      have ha : a = '/' := by
        simp only [strHasPre, Bool.and_eq_true, beq_iff_eq] at hpre
        exact hpre.1
      subst ha
      unfold canonPathPlain
      rw [if_neg (by simp)]
      by_cases hc : (decide (('/' :: t : Str).length > 1) && strHasSuf ('/' :: t) ['/']) = true
      · rw [if_pos hc]
        have ht : t ≠ [] := by
          intro h0
          subst h0
          simp at hc
        cases t with
        | nil => cases ht rfl
        | cons b u => exact ⟨(b :: u).dropLast, rfl⟩
      · rw [if_neg hc]
        exact ⟨t, rfl⟩

/-- The canonical path keeps the plain character property. -/
theorem canonPathPlain_chars (p : Str) (hpc : ∀ c ∈ p, pathPlainChar c = true) :
    ∀ c ∈ canonPathPlain p, pathPlainChar c = true := by
  intro c hc
  unfold canonPathPlain at hc
  by_cases h0 : p.isEmpty = true
  · rw [if_pos h0] at hc
    have : c = '/' := List.mem_singleton.mp hc
    subst this
    decide
  · rw [if_neg h0] at hc
    by_cases h1 : (decide (p.length > 1) && strHasSuf p ['/']) = true
    · rw [if_pos h1] at hc
      exact hpc c (List.dropLast_subset p hc)
    · rw [if_neg h1] at hc
      exact hpc c hc

/-- Stripping the lone trailing slash leaves no trailing slash when the
path did not end in a double slash. -/
theorem strHasSuf_dropLast (p : Str) (h1 : strHasSuf p ['/'] = true)
    (h2 : strHasSuf p (goStr "//") = false) :
    strHasSuf p.dropLast ['/'] = false := by
  have hrev : p.dropLast.reverse = p.reverse.tail := (List.tail_reverse p).symm
  unfold strHasSuf at h1 h2 ⊢
  rw [hrev]
  cases hpr : p.reverse with
  | nil => rw [hpr] at h1; cases h1
  | cons r0 rt =>
    rw [hpr] at h1 h2
    have hr0 : r0 = '/' := by
      simp only [List.reverse_cons, strHasPre, Bool.and_eq_true, beq_iff_eq] at h1
      exact h1.1
    subst hr0
    have hg2 : (goStr "//").reverse = ['/', '/'] := rfl
    rw [hg2] at h2
    rw [strHasPre_cons_same] at h2
    simpa using h2

/-- The canonical path is a fixed point of canonPathPlain. -/
theorem canonPathPlain_idem (p : Str)
    (hp0 : p = [] ∨ (strHasPre p ['/'] = true ∧ strHasSuf p (goStr "//") = false)) :
    canonPathPlain (canonPathPlain p) = canonPathPlain p := by
  rcases hp0 with rfl | ⟨hpre, hsuf⟩
  · rfl
  · unfold canonPathPlain
    by_cases h0 : p.isEmpty = true
    · rw [if_pos h0]
      rfl
    · rw [if_neg h0]
      by_cases h1 : (decide (p.length > 1) && strHasSuf p ['/']) = true
      · rw [if_pos h1]
        rw [Bool.and_eq_true, decide_eq_true_eq] at h1
        have hnos := strHasSuf_dropLast p h1.2 hsuf
        rw [if_neg, if_neg]
        · rw [Bool.and_eq_true]
          intro hx
          rw [hnos] at hx
          cases hx.2
        · intro hx
          rw [List.isEmpty_eq_true] at hx
          have hlen := congrArg List.length hx
          rw [List.length_dropLast] at hlen
          simp at hlen
          omega
      · rw [if_neg h1, if_neg h0, if_neg h1]

/-- The canonical path is not terminated by a double slash. -/
theorem canonPathPlain_noDouble (p : Str)
    (hp0 : p = [] ∨ (strHasPre p ['/'] = true ∧ strHasSuf p (goStr "//") = false)) :
    strHasSuf (canonPathPlain p) (goStr "//") = false := by
  rcases hp0 with rfl | ⟨hpre, hsuf⟩
  · rfl
  · unfold canonPathPlain
    by_cases h0 : p.isEmpty = true
    · rw [if_pos h0]
      rfl
    · rw [if_neg h0]
      by_cases h1 : (decide (p.length > 1) && strHasSuf p ['/']) = true
      · rw [if_pos h1]
        rw [Bool.and_eq_true, decide_eq_true_eq] at h1
        have hnos := strHasSuf_dropLast p h1.2 hsuf
        rw [Bool.eq_false_iff]
        intro hx
        have : strHasSuf p.dropLast ['/'] = true := by
          unfold strHasSuf at hx ⊢
          cases hdr : p.dropLast.reverse with
          | nil => rw [hdr] at hx; cases hx
          | cons d0 dt =>
            rw [hdr] at hx
            have hg2 : (goStr "//").reverse = ['/', '/'] := rfl
            rw [hg2] at hx
            simp only [strHasPre, Bool.and_eq_true, beq_iff_eq] at hx
            simp [strHasPre, hx.1]
        rw [this] at hnos
        cases hnos
      · rw [if_neg h1]
        exact hsuf

/-- The plain-family guard survives path canonicalization. -/
theorem plainHTTPParts_canon (h p q : Str) (hg : plainHTTPParts h p q = true) :
    plainHTTPParts h (canonPathPlain p) q = true := by
  obtain ⟨hne, hh, hp0, hqc⟩ := plainHTTPParts_unpack h p q hg
  have hpc : ∀ c ∈ p, pathPlainChar c = true := by
    rcases hp0 with rfl | ⟨_, hpc, _⟩
    · intro c hc; cases hc
    · exact hpc
  have hp0w : p = [] ∨ strHasPre p ['/'] = true := by
    rcases hp0 with rfl | ⟨h1, _, _⟩
    · exact Or.inl rfl
    · exact Or.inr h1
  have hp0n : p = [] ∨ (strHasPre p ['/'] = true ∧ strHasSuf p (goStr "//") = false) := by
    rcases hp0 with rfl | ⟨h1, _, h3⟩
    · exact Or.inl rfl
    · exact Or.inr ⟨h1, h3⟩
  obtain ⟨t, ht⟩ := canonPathPlain_shape p hp0w
  have hchars := canonPathPlain_chars p hpc
  have hnd := canonPathPlain_noDouble p hp0n
  unfold plainHTTPParts
  rw [List.isEmpty_eq_false.mpr hne, List.all_eq_true.mpr hh,
    List.all_eq_true.mpr hchars, List.all_eq_true.mpr hqc, hnd, ht,
    strHasPre_cons_same, strHasPre_nil]
  rfl

/-- The mutations of normalizeURLtoString on a plain parsed URL compute
canonPathPlain. -/
theorem normalizeMutations_plain (h p q : Str) (hne : h ≠ [])
    (hp0 : p = [] ∨ strHasPre p ['/'] = true) :
    normalizeMutations
        { scheme := goStr "http", host := h, path := p,
          forceQuery := false, rawQuery := q } =
      { scheme := goStr "http", host := h, path := canonPathPlain p,
        forceQuery := false, rawQuery := q } := by
  have hhe : h.isEmpty = false := List.isEmpty_eq_false.mpr hne
  unfold normalizeMutations
  dsimp only
  rcases hp0 with rfl | hpre
  · rw [hhe]
    rfl
  · cases p with
    | nil => cases hpre
    | cons a t =>
      rw [if_neg (show ¬((!List.isEmpty h && List.isEmpty (a :: t)) = true) by simp)]
      unfold canonPathPlain
      rw [if_neg (show ¬(List.isEmpty (a :: t) = true) by simp)]
      by_cases hc : (decide ((a :: t : Str).length > 1) && strHasSuf (a :: t) ['/']) = true
      · rw [if_pos hc, if_pos hc]
      · rw [if_neg hc, if_neg hc]

/-- URL.String on the canonical plain record reassembles the plain URL. -/
theorem urlString_plain (h cp q : Str) (hne : h ≠ [])
    (hh : ∀ c ∈ h, hostPlainChar c = true)
    (hshape : ∃ t, cp = '/' :: t)
    (hcpc : ∀ c ∈ cp, pathPlainChar c = true) :
    urlString { scheme := goStr "http", host := h, path := cp,
                forceQuery := false, rawQuery := q } = mkHTTP h cp q := by
  obtain ⟨t, rfl⟩ := hshape
  have hhe : h.isEmpty = false := List.isEmpty_eq_false.mpr hne
  have hesc : escape h .host = h := escape_id .host rfl h (fun c hc =>
    (hostCharOK_spec c (hostCharOK_of c (hh c hc))).2.2.2.2.2.2.2.2.2.1)
  have hescp : escape ('/' :: t) .path = '/' :: t := escape_id .path rfl _ (fun c hc =>
    (pathCharOK_spec c (pathCharOK_of c (hcpc c hc))).2.2.2.2.1)
  unfold urlString escapedPath mkHTTP
  dsimp only
  by_cases hq : q.isEmpty = true
  · rw [if_pos hq, List.isEmpty_eq_true.mp hq]
    simp [hhe, hesc, hescp, show List.isEmpty (goStr "http") = false from rfl]
    exact rfl
  · rw [if_neg hq]
    simp [hhe, hesc, hescp, hq, show List.isEmpty (goStr "http") = false from rfl]
    exact rfl

/-- Master lemma: normalizeURLtoString maps a plain http URL to its
canonical form. -/
theorem normalize_mkHTTP (h p q : Str) (hg : plainHTTPParts h p q = true) :
    normalizeURLtoString (mkHTTP h p q) = .ok (mkHTTP h (canonPathPlain p) q) := by
  obtain ⟨hne, hh, hp0, hqc⟩ := plainHTTPParts_unpack h p q hg
  have hpc : ∀ c ∈ p, pathPlainChar c = true := by
    rcases hp0 with rfl | ⟨_, hpc, _⟩
    · intro c hc; cases hc
    · exact hpc
  have hp0w : p = [] ∨ strHasPre p ['/'] = true := by
    rcases hp0 with rfl | ⟨h1, _, _⟩
    · exact Or.inl rfl
    · exact Or.inr h1
  have hcf := mkHTTP_char_facts h p q hh hpc hqc
  have htrim : trimSpaceGo (mkHTTP h p q) = mkHTTP h p q :=
    trimSpaceGo_of_all _ (fun c hc => (hcf c hc).1)
  have hne2 : List.isEmpty (mkHTTP h p q) = false := rfl
  have hsc : List.isEmpty (goStr "http") = false := rfl
  have hbf : isBareFragment { scheme := goStr "http", host := h, path := p,
                              forceQuery := false, rawQuery := q } = false := rfl
  unfold normalizeURLtoString
  rw [htrim]
  dsimp only
  rw [hne2]
  simp only [Bool.false_eq_true, if_false]
  rw [urlParse_plain h p q hg]
  dsimp only
  rw [hbf]
  simp only [Bool.false_eq_true, if_false]
  rw [hsc]
  simp only [Bool.false_and, Bool.false_eq_true, if_false]
  rw [normalizeMutations_plain h p q hne hp0w,
    urlString_plain h (canonPathPlain p) q hne hh (canonPathPlain_shape p hp0w)
      (canonPathPlain_chars p hpc)]

/-- C10 counterexample: normalization is not idempotent. On
http://x.com/a// the canonicalizer strips exactly one trailing slash,
yielding http://x.com/a/, and running it again yields the different
string http://x.com/a; so an output of normalizeURLtoString need not be
a fixed point. -/
theorem normalize_not_idempotent_counterexample :
    normalizeURLtoString (goStr "http://x.com/a//") = .ok (goStr "http://x.com/a/") ∧
      normalizeURLtoString (goStr "http://x.com/a/") = .ok (goStr "http://x.com/a") ∧
      (goStr "http://x.com/a/" : Str) ≠ goStr "http://x.com/a" :=
  ⟨by decide, by decide, by decide⟩

/-- C10 (amended): on the plain http family — a nonempty host of plain
host characters, a path that is empty or '/'-led, made of plain path
characters and not ending in a double slash, and a plain query —
normalizeURLtoString succeeds, and its output is a fixed point of
normalization: re-normalizing (as Crawl does when seeding) cannot change
the dedup key.  The output is the assembled URL with the canonical
path. -/
theorem canonicalize_plain_idempotent (h p q : Str)
    (hg : plainHTTPParts h p q = true) :
    ∃ out, normalizeURLtoString (mkHTTP h p q) = .ok out ∧
      normalizeURLtoString out = .ok out ∧
      out = mkHTTP h (canonPathPlain p) q := by
  refine ⟨mkHTTP h (canonPathPlain p) q, normalize_mkHTTP h p q hg, ?_, rfl⟩
  have hg2 := plainHTTPParts_canon h p q hg
  have h2 := normalize_mkHTTP h (canonPathPlain p) q hg2
  have hp0n : p = [] ∨ (strHasPre p ['/'] = true ∧ strHasSuf p (goStr "//") = false) := by
    obtain ⟨_, _, hp0, _⟩ := plainHTTPParts_unpack h p q hg
    rcases hp0 with rfl | ⟨h1, _, h3⟩
    · exact Or.inl rfl
    · exact Or.inr ⟨h1, h3⟩
  rwa [canonPathPlain_idem p hp0n] at h2

/-- Witness: the claim theorem applied to http://x.com/a/?k=v. -/
theorem canonicalize_plain_idempotent_witness :
    plainHTTPParts (goStr "x.com") (goStr "/a/") (goStr "k=v") = true ∧
      ∃ out,
        normalizeURLtoString (mkHTTP (goStr "x.com") (goStr "/a/") (goStr "k=v")) =
          .ok out ∧
        normalizeURLtoString out = .ok out ∧
        out = mkHTTP (goStr "x.com") (canonPathPlain (goStr "/a/")) (goStr "k=v") :=
  ⟨by decide, canonicalize_plain_idempotent _ _ _ (by decide)⟩

end Sitepanda
